import Mathlib

/-!
Verification of the cc_workflow pipeline scripts.

This file gives a shallow embedding of the six scripts in
src/cc_workflow (Maya SimpleObjExporter and create_groups and
import_images, Houdini obj2usd_sop and obj2usd_lop, ZBrush import)
and proves properties of the embedded definitions.

Modelling conventions:
- Python strings are embedded as `List Char`; the string methods used by
  the scripts (split, join, replace, strip, removeprefix) are defined
  below as structurally recursive functions so that concrete runs reduce
  in the kernel.  Human-readable log messages are kept as Lean `String`.
- Host-application calls (Maya `cmds`, ZBrush `zbrush.commands`,
  `Path.mkdir`, dialogs) are modelled as environment parameters: an
  environment record says which directory creations and which OBJ
  exports fail, and file-system walks (glob, rglob, iterdir) are inputs.
- Python `float` arithmetic in import_images is modelled as exact
  rational arithmetic over `ℚ`.
-/

/-! ## Generic Python string operations on `List Char` -/

/-- Python `s.replace(pat, rep)` (leftmost, non-overlapping), with an
explicit fuel argument so the recursion is structural.  The fuel is
initialised to the length of the string, which is enough because every
step consumes at least one character. -/
def pyReplaceFuel (pat rep : List Char) : Nat → List Char → List Char
  | _, [] => []
  | 0, s => s
  | fuel + 1, a :: rest =>
    if pat ≠ [] ∧ pat.isPrefixOf (a :: rest) then
      rep ++ pyReplaceFuel pat rep fuel ((a :: rest).drop pat.length)
    else
      a :: pyReplaceFuel pat rep fuel rest

/-- Python `s.replace(pat, rep)` for a non-empty pattern `pat`. -/
def pyReplace (pat rep s : List Char) : List Char :=
  pyReplaceFuel pat rep s.length s

/-- Python `s.strip(cs)`: remove the characters of `cs` from both ends. -/
def pyStrip (cs : List Char) (s : List Char) : List Char :=
  ((s.dropWhile (fun c => cs.contains c)).reverse.dropWhile
    (fun c => cs.contains c)).reverse

/-- Python `s.removeprefix(pre)`. -/
def pyRemovePrefixL (pre s : List Char) : List Char :=
  if pre.isPrefixOf s then s.drop pre.length else s

/-- Whether two adjacent occurrences of the character `c` appear in `s`. -/
def hasAdjPair (c : Char) : List Char → Bool
  | a :: b :: t => (a = c && b = c) || hasAdjPair c (b :: t)
  | _ => false

/-! ## Houdini obj2usd scripts (claim C3)

obj2usd_sop.py walks `<hip>/../obj` and, for the file at relative path
`d1/.../dk/stem.obj`, creates a `null` node named
`"out_" + "_".join(rel_path.with_suffix("").parts)`; the segment list
`[d1, ..., dk, stem]` is the `parts` argument below.
obj2usd_lop.py takes each such node name, removes the leading `out_`
(`name[4:]`), splits on `_`, and joins with `/` under `/World/`. -/

namespace Obj2Usd

/-- Name of the SOP-side `null` output node created for the obj file with
relative path segments `parts` (directories then stem, extension already
removed by `with_suffix("")`): `"out_" + "_".join(parts)`. -/
def sopNodeName (parts : List (List Char)) : List Char :=
  "out_".data ++ List.intercalate ['_'] parts

/-- LOP-side decoding of a null-node name: `node.name()[4:].split("_")`. -/
def lopRelParts (name : List Char) : List (List Char) :=
  (name.drop 4).splitOn '_'

/-- LOP-side prim path: `"/World/" + "/".join(rel_name_parts)`. -/
def lopPrimPath (name : List Char) : List Char :=
  "/World/".data ++ List.intercalate ['/'] (lopRelParts name)

end Obj2Usd

/-! ## Maya SimpleObjExporter (claims C1, C2, C5, C8, C9, C10) -/

namespace SimpleObjExporter

/-- The fixed set of illegal file-name characters used by
`clean_filename`: the Python literal `r'<>:"/\|?*'`. -/
def illegalChars : List Char := "<>:\"/\\|?*".data

/-- The error message displayed (and carried by the raised `ValueError`)
for a node name containing illegal characters. -/
def cleanErrMsg (name : List Char) : String :=
  "Node name \"" ++ String.mk name ++ "\" contains illegal characters."

/-- The value returned by `clean_filename` on the non-raising path:
`name.strip(" :|").replace(":", "_").replace("|", "_")`. -/
def cleanedName (name : List Char) : List Char :=
  pyReplace ['|'] ['_'] (pyReplace [':'] ['_'] (pyStrip [' ', ':', '|'] name))

/-- Embedding of `clean_filename`.  `Except.error msg` models
`om.MGlobal.displayError(msg)` followed by `raise ValueError(msg)`. -/
def clean_filename (name : List Char) : Except String (List Char) :=
  if name.any (fun c => illegalChars.contains c) then
    Except.error (cleanErrMsg name)
  else
    Except.ok (cleanedName name)

/-- Path segments of a path string, modelling `Path(s)` on a
POSIX-style absolute path (empty segments collapse). -/
def segsOf (p : List Char) : List (List Char) :=
  (p.splitOn '/').filter (fun seg => seg ≠ [])

/-- Modelling of `Path.resolve()` on segment lists: `..` pops the last
segment and `.` is dropped (symlinks are not modelled). -/
def resolveSegs (segs : List (List Char)) : List (List Char) :=
  segs.foldl
    (fun acc s =>
      if s = "..".data then acc.dropLast
      else if s = ".".data then acc
      else acc ++ [s])
    []

/-- Rendering of a resolved absolute path for log messages. -/
def pathStr (segs : List (List Char)) : String :=
  String.mk ('/' :: List.intercalate ['/'] segs)

/-- Environment: which host/file-system operations fail.
`mkdirFails` says whether `Path.mkdir(parents=True, exist_ok=True)`
raises at a given resolved directory (false means the directory already
exists or was created); `exportFails` says whether the `cmds.file`
OBJ-export command raises `RuntimeError` at a given output file; and
`dupeOf` is the node name returned by `cmds.duplicate(mesh, ...)`. -/
structure ExpEnv where
  mkdirFails : List (List Char) → Bool
  exportFails : List (List Char) → Bool
  dupeOf : List Char → List Char

/-- Embedding of `ensure_dir` (taking the string argument, as called by
`export_batch`): returns the boolean result together with the error
messages displayed. -/
def ensure_dir (env : ExpEnv) (path : List Char) : Bool × List String :=
  if path = [] then (false, [])
  else
    let dir_path := resolveSegs (segsOf path)
    if env.mkdirFails dir_path then
      (false, ["Failed to create directory " ++ pathStr dir_path])
    else (true, [])

/-- Embedding of `ensure_dir` as called by `export_mesh` with a `Path`
argument: a `Path` object is always truthy in Python, so the
`if not path` guard never fires on this call path. -/
def ensure_dirP (env : ExpEnv) (p : List (List Char)) : Bool × List String :=
  let dir_path := resolveSegs p
  if env.mkdirFails dir_path then
    (false, ["Failed to create directory " ++ pathStr dir_path])
  else (true, [])

/-- Maya scene state touched by `export_mesh`: the set of (transform)
nodes present and the current selection. -/
structure Scene where
  nodes : List (List Char)
  selection : List (List Char)
deriving DecidableEq, Repr

/-- State threaded through an export run: the scene, the OBJ files
written so far (as segment paths under the file system root) and the
messages displayed so far. -/
structure ExpState where
  scene : Scene
  written : List (List (List Char))
  msgs : List String
deriving DecidableEq, Repr

/-- The cleaned path components of a mesh DAG path:
`[clean_filename(p) for p in mesh.split("|") if p]`, evaluated left to
right with the first `ValueError` propagating. -/
def cleanPartsE : List (List Char) → Except String (List (List Char))
  | [] => Except.ok []
  | p :: rest =>
    match clean_filename p with
    | Except.error e => Except.error e
    | Except.ok c =>
      match cleanPartsE rest with
      | Except.error e => Except.error e
      | Except.ok cs => Except.ok (c :: cs)

/-- Embedding of `export_mesh`.  The returned `Except` is `Except.ok b`
for a normal return of `b`, and `Except.error e` when `clean_filename`
raises `ValueError` (which `export_mesh` does not catch).  The
`try/except RuntimeError/finally` around the export command is modelled
by the two branches on `env.exportFails`, both followed by the
`finally` block (delete the duplicate, reselect the mesh). -/
def export_mesh (env : ExpEnv) (batch : List (List Char)) (mesh : List Char)
    (st : ExpState) : ExpState × Except String Bool :=
  match cleanPartsE ((mesh.splitOn '|').filter (fun p => p ≠ [])) with
  | Except.error e => ({ st with msgs := st.msgs ++ [e] }, Except.error e)
  | Except.ok parts =>
    match parts.getLast? with
    | none => (st, Except.error "IndexError: list index out of range")
    | some mesh_name =>
      let out_dir := batch ++ parts.dropLast
      match ensure_dirP env out_dir with
      | (false, ms) =>
        ({ st with msgs := st.msgs ++ ms ++
            ["Failed to create export path for " ++ String.mk mesh] },
         Except.ok false)
      | (true, ms) =>
        let out_file := out_dir ++ [mesh_name ++ ".obj".data]
        let dupe := env.dupeOf mesh
        let st1 := { st with msgs := st.msgs ++ ms,
                             scene := { nodes := st.scene.nodes ++ [dupe],
                                        selection := [dupe] } }
        let step :=
          if env.exportFails out_file then
            ({ st1 with msgs := st1.msgs ++
                ["Failed to export " ++ String.mk mesh] }, false)
          else
            ({ st1 with written := st1.written ++ [out_file],
                        msgs := st1.msgs ++ ["Exported: " ++ pathStr out_file] },
             true)
        let st2 := step.1
        ({ st2 with scene := { nodes := st2.scene.nodes.erase dupe,
                               selection := [mesh] } },
         Except.ok step.2)

/-- The batch summary message
`f"Exported {success}/{total} meshes successfully."`. -/
def summaryMsg (success total : Nat) : String :=
  "Exported " ++ Nat.repr success ++ "/" ++ Nat.repr total ++
    " meshes successfully."

/-- Whether a displayed message is the batch summary for `total` meshes
(for some success count between 0 and `total`). -/
def isSummaryB (total : Nat) (m : String) : Bool :=
  (List.range (total + 1)).any (fun s => m == summaryMsg s total)

/-- The loop `success = sum(self.export_mesh(m) for m in meshes)`:
threads the state, counts successful exports, and stops with the
exception when `export_mesh` raises. -/
def batchLoop (env : ExpEnv) (batch : List (List Char)) :
    List (List Char) → ExpState → Nat → ExpState × Nat × Option String
  | [], st, acc => (st, acc, none)
  | m :: rest, st, acc =>
    match export_mesh env batch m st with
    | (st1, Except.error e) => (st1, acc, some e)
    | (st1, Except.ok b) =>
      batchLoop env batch rest st1 (acc + if b then 1 else 0)

/-- Embedding of `export_batch` with `batchPath` standing for
`self.params["batch_export_path"]`.  The second component is `some e`
when an uncaught `ValueError` aborts the batch. -/
def export_batch (env : ExpEnv) (batchPath : List Char)
    (meshes : List (List Char)) (st : ExpState) : ExpState × Option String :=
  match ensure_dir env batchPath with
  | (false, ms) =>
    ({ st with msgs := st.msgs ++ ms ++
        ["Invalid export path: " ++ String.mk batchPath] }, none)
  | (true, ms) =>
    let st0 := { st with msgs := st.msgs ++ ms }
    match batchLoop env (segsOf batchPath) meshes st0 0 with
    | (st1, _, some e) => (st1, some e)
    | (st1, succ, none) =>
      ({ st1 with msgs := st1.msgs ++ [summaryMsg succ meshes.length] }, none)

/-- The messages displayed by a single `export_mesh` call, read off a run
from the empty state (the messages appended do not depend on the
incoming state). -/
def meshMsgs (env : ExpEnv) (batch : List (List Char)) (mesh : List Char) :
    List String :=
  (export_mesh env batch mesh { scene := { nodes := [], selection := [] },
                                written := [], msgs := [] }).1.msgs

/-- Whether a single `export_mesh` call returns `True` (the return value
does not depend on the incoming state). -/
def meshSucceeds (env : ExpEnv) (batch : List (List Char)) (mesh : List Char) :
    Bool :=
  match (export_mesh env batch mesh { scene := { nodes := [], selection := [] },
                                      written := [], msgs := [] }).2 with
  | Except.ok true => true
  | _ => false

/-- The exporter parameter dictionary built by `__init__`. -/
structure ExportParams where
  batch_export_path : List (List Char)
  batch_import_path : List (List Char)
  groups : Bool
  ptgroups : Bool
  materials : Bool
  smoothing : Bool
  normals : Bool
deriving DecidableEq, Repr

/-- Embedding of `SimpleObjExporter.__init__`.  The argument is the
result of `cmds.file(q=True, sn=True)` (the saved scene file name, empty
when the scene has never been saved).  The first component is the list
of messages displayed; `Except.error` models the raised
`RuntimeError`. -/
def initExporter (sceneFile : List Char) :
    List String × Except String ExportParams :=
  if sceneFile = [] then
    (["Please save the scene before exporting."],
     Except.error "Scene not saved.")
  else
    let scene_dir := (segsOf sceneFile).dropLast
    let obj_dir := resolveSegs (scene_dir ++ ["..".data, "obj".data])
    ([], Except.ok
      { batch_export_path := obj_dir, batch_import_path := obj_dir,
        groups := true, ptgroups := true, materials := false,
        smoothing := true, normals := true })

end SimpleObjExporter

/-! ## ZBrush importer (claim C4)

`ZBrushImporter.import_objs(folder)` imports `sorted(folder.glob("*.obj"))`
into the current tool, then for each directory in
`sorted(folder.iterdir(), key=name)` creates a SubTool folder named after
it and imports `sorted(sub.rglob("*.obj"))` into it, renaming each via
`import_single_and_rename`.  The file-system walk results (glob, rglob,
iterdir) are inputs: `FSView.rootObjs` is the result of
`folder.glob("*.obj")`, and `FSView.entries` lists `folder.iterdir()`,
each directory entry carrying the result of `sub.rglob("*.obj")` as
paths relative to `sub` (the code computes `path.relative_to(sub)`).
Windows path rendering (backslash separators) is used, matching the
hard-coded Windows paths in the script.  The claims do not depend on
traversal order, so Python `sorted` on paths is modelled by an insertion
sort under codepoint-lexicographic order. -/

namespace ZBrushImport

/-- Lexicographic order on char lists (Python string comparison). -/
def lexLeB : List Char → List Char → Bool
  | [], _ => true
  | _ :: _, [] => false
  | a :: as, b :: bs => if a = b then lexLeB as bs else decide (a < b)

/-- Lexicographic order on segment paths (Python `Path` comparison by
parts). -/
def pathLeB : List (List Char) → List (List Char) → Bool
  | [], _ => true
  | _ :: _, [] => false
  | a :: as, b :: bs => if a = b then pathLeB as bs else lexLeB a b

/-- Python `sorted` on a list of names. -/
def sortNames (l : List (List Char)) : List (List Char) :=
  List.insertionSort (fun a b => lexLeB a b = true) l

/-- Python `sorted` on a list of relative paths. -/
def sortPaths (l : List (List (List Char))) : List (List (List Char)) :=
  List.insertionSort (fun a b => pathLeB a b = true) l

/-- One entry of `folder.iterdir()`: a plain file (skipped by the
`if not sub.is_dir(): continue` guard) or a subdirectory with the
relative paths of the `.obj` files found below it by `rglob`. -/
inductive FSEntry where
  | file (name : List Char)
  | dir (name : List Char) (objPaths : List (List (List Char)))
deriving DecidableEq, Repr

/-- The name of a directory entry. -/
def entryName : FSEntry → List Char
  | FSEntry.file n => n
  | FSEntry.dir n _ => n

/-- The rglob result attached to a directory entry (empty for files). -/
def entryObjs : FSEntry → List (List (List Char))
  | FSEntry.file _ => []
  | FSEntry.dir _ objs => objs

/-- The file-system view consumed by one `import_objs` call. -/
structure FSView where
  rootObjs : List (List Char)
  entries : List FSEntry

/-- Python `sorted(folder.iterdir(), key=lambda p: p.name)`. -/
def sortEntries (l : List FSEntry) : List FSEntry :=
  List.insertionSort (fun a b => lexLeB (entryName a) (entryName b) = true) l

/-- Windows rendering `str(path.relative_to(sub))` of a relative path. -/
def winRelStr (rel : List (List Char)) : List Char :=
  List.intercalate ['\\'] rel

/-- The SubTool name computed by `import_single_and_rename`:
`relative_path.removeprefix(".\\\\").replace("\\\\", "\\").replace("\\", "%5C")`
(the Lean literals below denote the same character sequences as the
Python ones). -/
def encodeSubtoolName (rel : List (List Char)) : List Char :=
  pyReplace "\\".data "%5C".data
    (pyReplace "\\\\".data "\\".data
      (pyRemovePrefixL ".\\\\".data (winRelStr rel)))

/-- The host-visible imports and folder creations performed by
`import_objs` (button presses, notebar text and the final
`move_placeholder_to_top` reordering are UI bookkeeping the claims do
not touch). -/
inductive ZAction where
  | createFolder (name : List Char)
  | importRoot (name : List Char)
  | importRenamed (sub : List Char) (rel : List (List Char)) (newName : List Char)
deriving DecidableEq, Repr

/-- Whether an `iterdir` entry is a directory with the given name. -/
def isDirNamed (n : List Char) : FSEntry → Bool
  | FSEntry.dir m _ => m == n
  | _ => false

/-- The actions generated for one `folder.iterdir()` entry: directories
get one `_create_folder(sub.name)` followed by one
`import_single_and_rename` per rglob hit; plain files are skipped. -/
def subActions : FSEntry → List ZAction
  | FSEntry.file _ => []
  | FSEntry.dir n objs =>
    ZAction.createFolder n ::
      (sortPaths objs).map (fun rel =>
        ZAction.importRenamed n rel (encodeSubtoolName rel))

/-- Embedding of `ZBrushImporter.import_objs`: root-level `.obj` files
are imported first (inside `zbc.freeze`), then each subdirectory is
processed in turn. -/
def import_objs (fs : FSView) : List ZAction :=
  (sortNames fs.rootObjs).map ZAction.importRoot ++
    (sortEntries fs.entries).flatMap subActions

end ZBrushImport

/-! ## Maya create_groups (claim C6) -/

namespace CreateGroups

/-- JSON values as consumed by `create_group_hierarchy`: strings and
objects drive group creation; every other JSON value (`other`) falls
through the `isinstance` checks and creates nothing. -/
inductive JVal where
  | str (s : String)
  | obj (fields : List (String × JVal))
  | other

/-- A group created in the scene: its requested name (the JSON key), the
name of the group it was parented under (none at top level) and the
value of its `notes` string attribute when one was set. -/
structure GNode where
  name : String
  parent : Option String
  notes : Option String
deriving DecidableEq, Repr

/-- Python `value.get(key)` on a JSON object (JSON objects have distinct
keys, so `find?` on the field list models dict lookup). -/
def lookupField (fields : List (String × JVal)) (key : String) : Option JVal :=
  (fields.find? (fun kv => kv.1 == key)).map (fun kv => kv.2)

/-- The `notes` attribute value set for a dict-valued key:
`notes = value.get("notes", "")` followed by `if notes:`, so the
attribute is only created for a non-empty string (non-string `notes`
values are outside the dialog schema and not modelled). -/
def notesOf (fields : List (String × JVal)) : Option String :=
  match lookupField fields "notes" with
  | some (JVal.str s) => if s = "" then none else some s
  | _ => none

/-- The recursion target `children = value.get("children", {})`
(non-dict `children` values are outside the dialog schema and not
modelled; an empty dict makes the `if children:` guard skip the
recursive call, which returns `[]` here anyway). -/
def childrenOf (fields : List (String × JVal)) : List (String × JVal) :=
  match lookupField fields "children" with
  | some (JVal.obj cs) => cs
  | _ => []

/-- Embedding of `create_group_hierarchy(node_dict, parent)`: the list of
groups created, in creation order.  Maya renaming on name collision is
not modelled (groups are identified by their requested names). -/
def create_group_hierarchy : List (String × JVal) → Option String → List GNode
  | [], _ => []
  | (key, JVal.str s) :: rest, parent =>
    { name := key, parent := parent, notes := some s } ::
      create_group_hierarchy rest parent
  | (key, JVal.obj fields) :: rest, parent =>
    { name := key, parent := parent, notes := notesOf fields } ::
      (create_group_hierarchy (childrenOf fields) (some key) ++
        create_group_hierarchy rest parent)
  | (_, JVal.other) :: rest, parent => create_group_hierarchy rest parent
termination_by l _ => sizeOf l
decreasing_by
· simp only [List.cons.sizeOf_spec]
  omega
· have h1 : 1 ≤ sizeOf fields := by cases fields <;> simp_arith
  have h2 : sizeOf (childrenOf fields) ≤ sizeOf fields := by
    unfold childrenOf
    cases hf : lookupField fields "children" with
    | none => simpa using h1
    | some v =>
      cases v with
      | str s => simpa using h1
      | other => simpa using h1
      | obj cs =>
        have hex : ∃ kv ∈ fields, kv.2 = JVal.obj cs := by
          unfold lookupField at hf
          cases hfind : List.find? (fun kv => kv.1 == "children") fields with
          | none => rw [hfind] at hf; simp at hf
          | some kv =>
            rw [hfind] at hf
            simp at hf
            exact ⟨kv, List.mem_of_find?_eq_some hfind, hf⟩
        obtain ⟨⟨k, v⟩, hmem, hkv⟩ := hex
        have hlt := List.sizeOf_lt_of_mem hmem
        simp only at hkv
        subst hkv
        simp only [Prod.mk.sizeOf_spec, JVal.obj.sizeOf_spec] at hlt
        simp only
        omega
  simp only [List.cons.sizeOf_spec, Prod.mk.sizeOf_spec, JVal.obj.sizeOf_spec]
  omega
· simp only [List.cons.sizeOf_spec, Prod.mk.sizeOf_spec, JVal.obj.sizeOf_spec]
  omega
· simp only [List.cons.sizeOf_spec]
  omega

/-- The number of dict-valued and string-valued keys reachable through
`children` chains: the number of groups the dialog description says
should be created. -/
def countGroups : List (String × JVal) → Nat
  | [] => 0
  | (_, JVal.str _) :: rest => 1 + countGroups rest
  | (_, JVal.obj fields) :: rest =>
    1 + countGroups (childrenOf fields) + countGroups rest
  | (_, JVal.other) :: rest => countGroups rest
termination_by l => sizeOf l
decreasing_by
· simp only [List.cons.sizeOf_spec]
  omega
· have h1 : 1 ≤ sizeOf fields := by cases fields <;> simp_arith
  have h2 : sizeOf (childrenOf fields) ≤ sizeOf fields := by
    unfold childrenOf
    cases hf : lookupField fields "children" with
    | none => simpa using h1
    | some v =>
      cases v with
      | str s => simpa using h1
      | other => simpa using h1
      | obj cs =>
        have hex : ∃ kv ∈ fields, kv.2 = JVal.obj cs := by
          unfold lookupField at hf
          cases hfind : List.find? (fun kv => kv.1 == "children") fields with
          | none => rw [hfind] at hf; simp at hf
          | some kv =>
            rw [hfind] at hf
            simp at hf
            exact ⟨kv, List.mem_of_find?_eq_some hfind, hf⟩
        obtain ⟨⟨k, v⟩, hmem, hkv⟩ := hex
        have hlt := List.sizeOf_lt_of_mem hmem
        simp only at hkv
        subst hkv
        simp only [Prod.mk.sizeOf_spec, JVal.obj.sizeOf_spec] at hlt
        simp only
        omega
  simp only [List.cons.sizeOf_spec, Prod.mk.sizeOf_spec, JVal.obj.sizeOf_spec]
  omega
· simp only [List.cons.sizeOf_spec, Prod.mk.sizeOf_spec, JVal.obj.sizeOf_spec]
  omega
· simp only [List.cons.sizeOf_spec]
  omega

/-- Specification-side description of the groups the amended claim says
are created for the object `d` under parent `parent`: one group per
dict-valued or string-valued key, reachable through `children` chains,
parented under the group of the enclosing key, with `notes` as set by
the code paths above. -/
inductive Describes : List (String × JVal) → Option String → GNode → Prop where
  | strNode (d : List (String × JVal)) (parent : Option String)
      (key : String) (s : String) (hmem : (key, JVal.str s) ∈ d) :
      Describes d parent { name := key, parent := parent, notes := some s }
  | objNode (d : List (String × JVal)) (parent : Option String)
      (key : String) (fields : List (String × JVal))
      (hmem : (key, JVal.obj fields) ∈ d) :
      Describes d parent { name := key, parent := parent, notes := notesOf fields }
  | childNode (d : List (String × JVal)) (parent : Option String)
      (key : String) (fields : List (String × JVal)) (g : GNode)
      (hmem : (key, JVal.obj fields) ∈ d)
      (hg : Describes (childrenOf fields) (some key) g) :
      Describes d parent g

end CreateGroups

/-! ## Maya import_images (claim C7) -/

namespace ImportImages

/-- The first three components of the `views` dict values, in dict
insertion order front, back, left, right, top, bottom: the unit
direction of each orthographic view. -/
def viewDirs : List (ℚ × ℚ × ℚ) :=
  [(0, 0, 1), (0, 0, -1), (-1, 0, 0), (1, 0, 0), (0, 1, 0), (0, -1, 0)]

/-- The translation assigned to image plane `i` by
`position_image_planes`: for `i < 6` the view direction scaled by
`spacing * 1.2` with `ground_offset` added to the Y coordinate, and for
later planes `(0, ground_offset, spacing * 1.2 + (i - 5) * 5)`.
Python floats are modelled as exact rationals. -/
def planePos (spacing ground_offset : ℚ) (i : Nat) : ℚ × ℚ × ℚ :=
  if i < 6 then
    let d := viewDirs.getD i (0, 0, 0)
    (d.1 * spacing * (6 / 5),
     d.2.1 * spacing * (6 / 5) + ground_offset,
     d.2.2 * spacing * (6 / 5))
  else
    (0, ground_offset, spacing * (6 / 5) + ((i : ℚ) - 5) * 5)

/-- Embedding of `position_image_planes` over a list of `n` planes: the
translation set on each plane, in order. -/
def position_image_planes (spacing ground_offset : ℚ) (n : Nat) :
    List (ℚ × ℚ × ℚ) :=
  (List.range n).map (planePos spacing ground_offset)

/-- The running maximum `spacing = max(spacing, width, height)` computed
by `create_image_planes_for_views`, starting from 0, over the
(width, height) pairs of the created planes. -/
def computeSpacing (dims : List (ℚ × ℚ)) : ℚ :=
  dims.foldl (fun acc d => max (max acc d.1) d.2) 0

/-- The running maximum `ground_offset = max(ground_offset, height / 2)`
computed by `create_image_planes_for_views`, starting from 0. -/
def computeGroundOffset (dims : List (ℚ × ℚ)) : ℚ :=
  dims.foldl (fun acc d => max acc (d.2 / 2)) 0

/-- Specification-side maximum of a list of rationals and 0. -/
def listMax (l : List ℚ) : ℚ := l.foldl max 0

end ImportImages

/-! ## Shared test environment -/

namespace SimpleObjExporter

/-- The empty export state (fresh scene, nothing written or displayed). -/
def emptySt : ExpState :=
  { scene := { nodes := [], selection := [] }, written := [], msgs := [] }

/-- An environment in which every host operation succeeds and
`cmds.duplicate` appends the `_export` suffix requested by the code. -/
def envOk : ExpEnv :=
  { mkdirFails := fun _ => false, exportFails := fun _ => false,
    dupeOf := fun m => m ++ "_export".data }

end SimpleObjExporter

/-! # Theorems -/

/-! ## Claim C3: Houdini path-name round-trip -/

/-- C3 (counterexample): the claimed round-trip fails as soon as a path
segment contains an underscore.  For the file `a_b.obj` at the obj root,
the SOP script names the null node `out_a_b`, and the LOP script decodes
that to the two segments `a`, `b` and prim path `/World/a/b`, not to the
original single segment `a_b`. -/
theorem C3_counterexample :
    Obj2Usd.lopRelParts (Obj2Usd.sopNodeName [['a', '_', 'b']]) ≠ [['a', '_', 'b']] ∧
    Obj2Usd.lopRelParts (Obj2Usd.sopNodeName [['a', '_', 'b']]) = [['a'], ['b']] ∧
    Obj2Usd.lopPrimPath (Obj2Usd.sopNodeName [['a', '_', 'b']]) = "/World/a/b".data := by
  decide

/-- C3 (amended): for every obj file whose relative-path segments
(directories and stem) are non-empty of underscores, the LOP decoding of
the SOP node name recovers exactly the original segments, and the prim
path is `/World/` followed by the segments joined with `/`. -/
theorem C3_roundtrip_amended (parts : List (List Char)) (hne : parts ≠ [])
    (hclean : ∀ p ∈ parts, '_' ∉ p) :
    Obj2Usd.lopRelParts (Obj2Usd.sopNodeName parts) = parts ∧
    Obj2Usd.lopPrimPath (Obj2Usd.sopNodeName parts) =
      "/World/".data ++ List.intercalate ['/'] parts := by
  have hdrop : (Obj2Usd.sopNodeName parts).drop 4 = List.intercalate ['_'] parts := rfl
  have h1 : Obj2Usd.lopRelParts (Obj2Usd.sopNodeName parts) = parts := by
    unfold Obj2Usd.lopRelParts
    rw [hdrop]
    exact List.splitOn_intercalate _ _ hclean hne
  refine ⟨h1, ?_⟩
  unfold Obj2Usd.lopPrimPath
  rw [h1]

/-- C3 (witness): the amended round-trip at the concrete segment list
for the file `props/chair.obj`. -/
theorem C3_witness :
    Obj2Usd.lopRelParts (Obj2Usd.sopNodeName ["props".data, "chair".data]) =
      ["props".data, "chair".data] :=
  (C3_roundtrip_amended ["props".data, "chair".data] (by decide) (by decide)).1



/-! ## Claim C2: clean_filename on illegal characters -/

/-- C2 (counterexample): `clean_filename` does not strip illegal
characters and return the cleaned name; on the name `a?` it displays an
error and raises `ValueError` instead. -/
theorem C2_counterexample :
    SimpleObjExporter.clean_filename "a?".data =
      Except.error "Node name \"a?\" contains illegal characters." := rfl

/-- C2 (amended): `clean_filename` raises `ValueError` (carrying the
displayed error message) exactly when the name contains a character of
the fixed illegal set; for every other name it returns without raising,
with the name stripped of leading and trailing spaces, colons and pipes
and remaining colons and pipes replaced by underscores. -/
theorem C2_clean_filename_amended (name : List Char) :
    (SimpleObjExporter.clean_filename name =
        Except.error (SimpleObjExporter.cleanErrMsg name) ↔
      ∃ c ∈ name, c ∈ SimpleObjExporter.illegalChars) ∧
    ((∀ c ∈ name, c ∉ SimpleObjExporter.illegalChars) →
      SimpleObjExporter.clean_filename name =
        Except.ok (SimpleObjExporter.cleanedName name)) := by
  have hiff : (name.any (fun c => SimpleObjExporter.illegalChars.contains c)
      = true) ↔ ∃ c ∈ name, c ∈ SimpleObjExporter.illegalChars := by
    rw [List.any_eq_true]
    constructor
    · rintro ⟨c, hc, hcont⟩
      exact ⟨c, hc, List.elem_iff.mp hcont⟩
    · rintro ⟨c, hc, hmem⟩
      exact ⟨c, hc, List.elem_iff.mpr hmem⟩
  unfold SimpleObjExporter.clean_filename
  by_cases h : name.any (fun c => SimpleObjExporter.illegalChars.contains c)
  · rw [if_pos h]
    refine ⟨⟨fun _ => hiff.mp h, fun _ => rfl⟩, fun hall => ?_⟩
    obtain ⟨c, hc, hil⟩ := hiff.mp h
    exact absurd hil (hall c hc)
  · rw [if_neg h]
    have hno : ¬ ∃ c ∈ name, c ∈ SimpleObjExporter.illegalChars :=
      fun hex => h (hiff.mpr hex)
    exact ⟨⟨fun hcontra => Except.noConfusion hcontra,
            fun hex => absurd hex hno⟩, fun _ => rfl⟩

/-- C2 (witness): the amended theorem at the legal name `ab`. -/
theorem C2_witness :
    SimpleObjExporter.clean_filename "ab".data =
      Except.ok (SimpleObjExporter.cleanedName "ab".data) :=
  (C2_clean_filename_amended "ab".data).2 (by decide)

/-! ## Claim C10: totality of ensure_dir -/

/-- C10: `ensure_dir` always returns a boolean (the embedding catches
every `mkdir` failure): it returns `True` exactly when the path is
non-empty and the `mkdir(parents=True, exist_ok=True)` call succeeds
(i.e. the directory already exists or was created); it returns `False`
with no message for an empty path, and `False` with a displayed error
when directory creation fails. -/
theorem C10_ensure_dir (env : SimpleObjExporter.ExpEnv) (path : List Char) :
    ((SimpleObjExporter.ensure_dir env path).1 = true ↔
      (path ≠ [] ∧
        env.mkdirFails (SimpleObjExporter.resolveSegs
          (SimpleObjExporter.segsOf path)) = false)) ∧
    (path = [] → SimpleObjExporter.ensure_dir env path = (false, [])) ∧
    (path ≠ [] →
      env.mkdirFails (SimpleObjExporter.resolveSegs
        (SimpleObjExporter.segsOf path)) = true →
      SimpleObjExporter.ensure_dir env path =
        (false, ["Failed to create directory " ++
          SimpleObjExporter.pathStr (SimpleObjExporter.resolveSegs
            (SimpleObjExporter.segsOf path))])) := by
  unfold SimpleObjExporter.ensure_dir
  by_cases hp : path = []
  · simp [hp]
  · by_cases hm : env.mkdirFails
        (SimpleObjExporter.resolveSegs (SimpleObjExporter.segsOf path)) <;>
      simp [hp, hm]

/-- C10 (witness): `ensure_dir` on a non-empty path in the all-succeeding
environment returns `True`. -/
theorem C10_witness :
    (SimpleObjExporter.ensure_dir SimpleObjExporter.envOk "/exp".data).1 = true :=
  (C10_ensure_dir SimpleObjExporter.envOk "/exp".data).1.mpr
    ⟨by decide, by decide⟩

/-! ## Claim C8: SimpleObjExporter construction -/

/-- C8: constructing `SimpleObjExporter` raises exactly when the scene
has no saved file name, displaying an error message first; otherwise it
succeeds with no message and sets both `batch_export_path` and
`batch_import_path` to the resolved `<scene directory>/../obj`. -/
theorem C8_init (sceneFile : List Char) :
    ((∃ e, (SimpleObjExporter.initExporter sceneFile).2 = Except.error e) ↔
      sceneFile = []) ∧
    (sceneFile = [] →
      (SimpleObjExporter.initExporter sceneFile).1 =
        ["Please save the scene before exporting."]) ∧
    (sceneFile ≠ [] →
      (SimpleObjExporter.initExporter sceneFile).1 = [] ∧
      (SimpleObjExporter.initExporter sceneFile).2 = Except.ok
        { batch_export_path := SimpleObjExporter.resolveSegs
            ((SimpleObjExporter.segsOf sceneFile).dropLast ++
              ["..".data, "obj".data]),
          batch_import_path := SimpleObjExporter.resolveSegs
            ((SimpleObjExporter.segsOf sceneFile).dropLast ++
              ["..".data, "obj".data]),
          groups := true, ptgroups := true, materials := false,
          smoothing := true, normals := true }) := by
  unfold SimpleObjExporter.initExporter
  by_cases h : sceneFile = [] <;> simp [h]

/-- C8 (witness): for the saved scene `/proj/scenes/shot.mb` the export
and import paths both resolve to `/proj/obj`. -/
theorem C8_witness :
    (SimpleObjExporter.initExporter "/proj/scenes/shot.mb".data).2 =
      Except.ok
        { batch_export_path := SimpleObjExporter.resolveSegs
            ((SimpleObjExporter.segsOf "/proj/scenes/shot.mb".data).dropLast ++
              ["..".data, "obj".data]),
          batch_import_path := SimpleObjExporter.resolveSegs
            ((SimpleObjExporter.segsOf "/proj/scenes/shot.mb".data).dropLast ++
              ["..".data, "obj".data]),
          groups := true, ptgroups := true, materials := false,
          smoothing := true, normals := true } :=
  ((C8_init "/proj/scenes/shot.mb".data).2.2 (by decide)).2

/-! ## Helper lemmas for the export_mesh family -/

/-- When no component contains an illegal character, the list
comprehension over `clean_filename` succeeds and cleans each part. -/
theorem cleanPartsE_ok (l : List (List Char))
    (h : ∀ p ∈ l, p.any (fun c => SimpleObjExporter.illegalChars.contains c)
      = false) :
    SimpleObjExporter.cleanPartsE l =
      Except.ok (l.map SimpleObjExporter.cleanedName) := by
  induction l with
  | nil => rfl
  | cons a l ih =>
    have ha := h a (by simp)
    have ihh := ih (fun p hp => h p (by simp [hp]))
    have hcf : SimpleObjExporter.clean_filename a =
        Except.ok (SimpleObjExporter.cleanedName a) := by
      unfold SimpleObjExporter.clean_filename
      rw [ha]
      simp
    unfold SimpleObjExporter.cleanPartsE
    rw [hcf, ihh]
    rfl

/-- A `clean_filename` failure message always has the
`Node name "..." contains illegal characters.` shape. -/
theorem cleanPartsE_error_shape (l : List (List Char)) (e : String)
    (h : SimpleObjExporter.cleanPartsE l = Except.error e) :
    ∃ p, e = SimpleObjExporter.cleanErrMsg p := by
  induction l with
  | nil => exact absurd h (by simp [SimpleObjExporter.cleanPartsE])
  | cons a l ih =>
    unfold SimpleObjExporter.cleanPartsE at h
    by_cases ha : a.any (fun c => SimpleObjExporter.illegalChars.contains c)
    · have hcf : SimpleObjExporter.clean_filename a =
          Except.error (SimpleObjExporter.cleanErrMsg a) := by
        unfold SimpleObjExporter.clean_filename
        rw [ha]
        simp
      rw [hcf] at h
      refine ⟨a, ?_⟩
      simpa using h.symm
    · have ha2 : a.any (fun c => SimpleObjExporter.illegalChars.contains c)
          = false := by simpa using ha
      have hcf : SimpleObjExporter.clean_filename a =
          Except.ok (SimpleObjExporter.cleanedName a) := by
        unfold SimpleObjExporter.clean_filename
        rw [ha2]
        simp
      rw [hcf] at h
      cases hl : SimpleObjExporter.cleanPartsE l with
      | error e2 =>
        rw [hl] at h
        have he : e2 = e := by simpa using h
        exact ih (he ▸ hl)
      | ok v =>
        rw [hl] at h
        simp at h

/-- Normal form of `export_mesh` on the path where cleaning and
directory creation succeed: the duplicate is created and removed, the
selection ends on the mesh, and the two `try` outcomes differ only in
the file written and the message displayed. -/
theorem export_mesh_eq (env : SimpleObjExporter.ExpEnv)
    (batch : List (List Char)) (mesh : List Char)
    (st : SimpleObjExporter.ExpState) (init : List (List Char))
    (lastp : List Char)
    (hsplit : (mesh.splitOn '|').filter (fun p => p ≠ []) = init ++ [lastp])
    (hclean : ∀ p ∈ init ++ [lastp],
      p.any (fun c => SimpleObjExporter.illegalChars.contains c) = false)
    (hdir : env.mkdirFails (SimpleObjExporter.resolveSegs
      (batch ++ init.map SimpleObjExporter.cleanedName)) = false) :
    ((SimpleObjExporter.export_mesh env batch mesh st).1.scene.nodes =
      (st.scene.nodes ++ [env.dupeOf mesh]).erase (env.dupeOf mesh)) ∧
    ((SimpleObjExporter.export_mesh env batch mesh st).1.scene.selection =
      [mesh]) ∧
    ((SimpleObjExporter.export_mesh env batch mesh st).1.written =
      st.written ++
        (if env.exportFails (batch ++ init.map SimpleObjExporter.cleanedName ++
            [SimpleObjExporter.cleanedName lastp ++ ".obj".data]) then []
         else [batch ++ init.map SimpleObjExporter.cleanedName ++
            [SimpleObjExporter.cleanedName lastp ++ ".obj".data]])) ∧
    ((SimpleObjExporter.export_mesh env batch mesh st).1.msgs =
      st.msgs ++
        [if env.exportFails (batch ++ init.map SimpleObjExporter.cleanedName ++
            [SimpleObjExporter.cleanedName lastp ++ ".obj".data]) then
          "Failed to export " ++ String.mk mesh
         else "Exported: " ++ SimpleObjExporter.pathStr
            (batch ++ init.map SimpleObjExporter.cleanedName ++
              [SimpleObjExporter.cleanedName lastp ++ ".obj".data])]) ∧
    ((SimpleObjExporter.export_mesh env batch mesh st).2 =
      Except.ok (!env.exportFails
        (batch ++ init.map SimpleObjExporter.cleanedName ++
          [SimpleObjExporter.cleanedName lastp ++ ".obj".data]))) := by
  unfold SimpleObjExporter.export_mesh
  rw [hsplit, cleanPartsE_ok _ hclean]
  rw [List.map_append]
  simp only [List.map_cons, List.map_nil]
  rw [List.getLast?_concat, List.dropLast_concat]
  simp only [SimpleObjExporter.ensure_dirP, hdir, Bool.false_eq_true,
    if_false]
  split <;> simp_all [List.append_assoc]

open SimpleObjExporter in
/-- The messages a single `export_mesh` call appends and the value it
returns do not depend on the incoming state. -/
theorem export_mesh_state_free (env : ExpEnv) (batch : List (List Char))
    (mesh : List Char) (st : ExpState) :
    (export_mesh env batch mesh st).1.msgs =
      st.msgs ++ meshMsgs env batch mesh ∧
    (export_mesh env batch mesh st).2 =
      (export_mesh env batch mesh emptySt).2 := by
  unfold export_mesh meshMsgs export_mesh
  cases hc : cleanPartsE ((mesh.splitOn '|').filter (fun p => p ≠ [])) with
  | error e => simp
  | ok parts =>
    dsimp only
    cases hl : parts.getLast? with
    | none => simp
    | some mn =>
      dsimp only
      by_cases hm : env.mkdirFails (resolveSegs (batch ++ parts.dropLast))
      · have hed : ensure_dirP env (batch ++ parts.dropLast) =
            (false, ["Failed to create directory " ++
              pathStr (resolveSegs (batch ++ parts.dropLast))]) := by
          unfold ensure_dirP
          dsimp only
          rw [hm]
          simp
        rw [hed]
        simp
      · have hed : ensure_dirP env (batch ++ parts.dropLast) = (true, []) := by
          unfold ensure_dirP
          dsimp only
          rw [show env.mkdirFails (resolveSegs (batch ++ parts.dropLast))
            = false by simpa using hm]
          simp
        rw [hed]
        by_cases hx : env.exportFails
            (batch ++ parts.dropLast ++ [mn ++ ".obj".data])
        · rw [show env.exportFails
              (batch ++ parts.dropLast ++ [mn ++ ".obj".data]) = true
            from hx]
          simp [List.append_assoc]
        · rw [show env.exportFails
              (batch ++ parts.dropLast ++ [mn ++ ".obj".data]) = false
            by simpa using hx]
          simp [List.append_assoc]

open SimpleObjExporter in
/-- Normal form of `export_mesh` when cleaning succeeds but the output
directory cannot be created: two errors are displayed and the call
returns `False` without touching the scene. -/
theorem export_mesh_eq_dirfail (env : ExpEnv) (batch : List (List Char))
    (mesh : List Char) (st : ExpState) (init : List (List Char))
    (lastp : List Char)
    (hsplit : (mesh.splitOn '|').filter (fun p => p ≠ []) = init ++ [lastp])
    (hclean : ∀ p ∈ init ++ [lastp],
      p.any (fun c => illegalChars.contains c) = false)
    (hdir : env.mkdirFails (resolveSegs
      (batch ++ init.map cleanedName)) = true) :
    export_mesh env batch mesh st =
      ({ st with msgs := st.msgs ++
          ["Failed to create directory " ++
            pathStr (resolveSegs (batch ++ init.map cleanedName)),
           "Failed to create export path for " ++ String.mk mesh] },
       Except.ok false) := by
  unfold export_mesh
  rw [hsplit, cleanPartsE_ok _ hclean]
  rw [List.map_append]
  simp only [List.map_cons, List.map_nil]
  rw [List.getLast?_concat, List.dropLast_concat]
  have hed : ensure_dirP env (batch ++ init.map cleanedName) =
      (false, ["Failed to create directory " ++
        pathStr (resolveSegs (batch ++ init.map cleanedName))]) := by
    unfold ensure_dirP
    dsimp only
    rw [hdir]
    simp
  rw [hed]
  simp

open SimpleObjExporter in
/-- Reading off `meshSucceeds` from an established return value. -/
theorem meshSucceeds_eq (env : ExpEnv) (batch : List (List Char))
    (mesh : List Char) (b : Bool)
    (h : (export_mesh env batch mesh
        { scene := { nodes := [], selection := [] },
          written := [], msgs := [] }).2 = Except.ok b) :
    meshSucceeds env batch mesh = b := by
  unfold meshSucceeds
  rw [h]
  cases b <;> rfl

open SimpleObjExporter in
/-- Under the good-mesh hypotheses, `export_mesh` returns normally, with
the boolean recorded by `meshSucceeds`. -/
theorem export_mesh_ret_ok (env : ExpEnv) (batch : List (List Char))
    (mesh : List Char) (st : ExpState)
    (hne : (mesh.splitOn '|').filter (fun p => p ≠ []) ≠ [])
    (hclean : ∀ p ∈ (mesh.splitOn '|').filter (fun p => p ≠ []),
      p.any (fun c => illegalChars.contains c) = false) :
    (export_mesh env batch mesh st).2 =
      Except.ok (meshSucceeds env batch mesh) := by
  obtain ⟨init, lastp, hsplit⟩ :
      ∃ init lastp,
        (mesh.splitOn '|').filter (fun p => p ≠ []) = init ++ [lastp] := by
    rcases List.eq_nil_or_concat
        ((mesh.splitOn '|').filter (fun p => p ≠ [])) with h | ⟨l2, a, h⟩
    · exact absurd h hne
    · exact ⟨l2, a, by simpa [List.concat_eq_append] using h⟩
  rw [hsplit] at hclean
  by_cases hm : env.mkdirFails (resolveSegs (batch ++ init.map cleanedName))
  · have h1 := export_mesh_eq_dirfail env batch mesh st init lastp
      hsplit hclean hm
    have h2 := export_mesh_eq_dirfail env batch mesh
      { scene := { nodes := [], selection := [] }, written := [], msgs := [] }
      init lastp hsplit hclean hm
    rw [h1, meshSucceeds_eq env batch mesh false (by rw [h2])]
  · have hmf : env.mkdirFails (resolveSegs
        (batch ++ init.map cleanedName)) = false := by simpa using hm
    have h1 := (export_mesh_eq env batch mesh st init lastp
      hsplit hclean hmf).2.2.2.2
    have h2 := (export_mesh_eq env batch mesh
      { scene := { nodes := [], selection := [] }, written := [], msgs := [] }
      init lastp hsplit hclean hmf).2.2.2.2
    rw [h1, meshSucceeds_eq env batch mesh _ h2]

/-! ## Claim C5: export path mirrors the scene hierarchy -/

open SimpleObjExporter in
/-- C5: for a mesh with full DAG path made of components
`init ++ [lastp]`, when cleaning, directory creation and the export
command succeed, `export_mesh` writes exactly one file, at
`<batch_export_path>/p1/.../p(n-1)/pn.obj` with every component the
cleaned node name, and returns `True`. -/
theorem C5_export_mesh_path (env : ExpEnv) (batch : List (List Char))
    (mesh : List Char) (st : ExpState) (init : List (List Char))
    (lastp : List Char)
    (hsplit : (mesh.splitOn '|').filter (fun p => p ≠ []) = init ++ [lastp])
    (hclean : ∀ p ∈ init ++ [lastp],
      p.any (fun c => illegalChars.contains c) = false)
    (hdir : env.mkdirFails (resolveSegs
      (batch ++ init.map cleanedName)) = false)
    (hexp : env.exportFails (batch ++ init.map cleanedName ++
      [cleanedName lastp ++ ".obj".data]) = false) :
    (export_mesh env batch mesh st).1.written =
      st.written ++ [batch ++ init.map cleanedName ++
        [cleanedName lastp ++ ".obj".data]] ∧
    (export_mesh env batch mesh st).2 = Except.ok true := by
  obtain ⟨-, -, hw, -, hr⟩ :=
    export_mesh_eq env batch mesh st init lastp hsplit hclean hdir
  rw [hw, hr, hexp]
  simp

open SimpleObjExporter in
/-- C5 (witness): exporting the mesh `|grp|pCube1` into batch root
`exp` writes `exp/grp/pCube1.obj`. -/
theorem C5_witness :
    (export_mesh envOk ["exp".data] "|grp|pCube1".data emptySt).1.written =
      [["exp".data, SimpleObjExporter.cleanedName "grp".data,
        SimpleObjExporter.cleanedName "pCube1".data ++ ".obj".data]] ∧
    (export_mesh envOk ["exp".data] "|grp|pCube1".data emptySt).2 =
      Except.ok true := by
  have h := C5_export_mesh_path envOk ["exp".data] "|grp|pCube1".data emptySt
    ["grp".data] "pCube1".data (by decide) (by decide) rfl rfl
  simpa using h

/-! ## Claim C9: scene restored by export_mesh -/

open SimpleObjExporter in
/-- C9: whenever `export_mesh` reaches the duplication step (cleaning
and directory creation succeed) and the duplicate name is fresh, the
temporary duplicate is deleted and the selection is reset to the
original mesh whether the export command succeeds or raises: the scene
node set after the call is exactly the node set before it. -/
theorem C9_scene_restored (env : ExpEnv) (batch : List (List Char))
    (mesh : List Char) (st : ExpState) (init : List (List Char))
    (lastp : List Char)
    (hsplit : (mesh.splitOn '|').filter (fun p => p ≠ []) = init ++ [lastp])
    (hclean : ∀ p ∈ init ++ [lastp],
      p.any (fun c => illegalChars.contains c) = false)
    (hdir : env.mkdirFails (resolveSegs
      (batch ++ init.map cleanedName)) = false)
    (hfresh : env.dupeOf mesh ∉ st.scene.nodes) :
    (export_mesh env batch mesh st).1.scene.nodes = st.scene.nodes ∧
    (export_mesh env batch mesh st).1.scene.selection = [mesh] := by
  obtain ⟨hn, hs, -, -, -⟩ :=
    export_mesh_eq env batch mesh st init lastp hsplit hclean hdir
  refine ⟨?_, hs⟩
  rw [hn, List.erase_append_right _ hfresh]
  simp

open SimpleObjExporter in
/-- C9 (witness): the concrete run on mesh `|pSphere1` in an empty
scene, with the export command either outcome fixed to success. -/
theorem C9_witness :
    (export_mesh envOk ["exp".data] "|pSphere1".data emptySt).1.scene.nodes
      = [] ∧
    (export_mesh envOk ["exp".data] "|pSphere1".data emptySt).1.scene.selection
      = ["|pSphere1".data] := by
  have h := C9_scene_restored envOk ["exp".data] "|pSphere1".data emptySt
    [] "pSphere1".data (by decide) (by decide) rfl (by simp [emptySt])
  simpa using h

/-! ## String-shape lemmas for the batch summary -/

/-- Indexing into the data of an appended string stays in the left part
while in range. -/
theorem append_data_getElem (x y : String) (n : Nat)
    (h : n < x.data.length) : (x ++ y).data[n]? = x.data[n]? := by
  rw [String.data_append]
  exact List.getElem?_append_left h

open SimpleObjExporter in
/-- The first character of every batch summary message is `E`. -/
theorem summary_head (s t : Nat) : (summaryMsg s t).data[0]? = some 'E' := by
  have hd : (summaryMsg s t).data = "Exported ".data ++
      ((Nat.repr s).data ++ ("/".data ++
        ((Nat.repr t).data ++ " meshes successfully.".data))) := by
    unfold SimpleObjExporter.summaryMsg
    simp only [String.data_append, List.append_assoc]
  rw [hd, List.getElem?_append_left (by decide)]
  decide

open SimpleObjExporter in
/-- The ninth character (index 8) of every batch summary message is the
space after the word `Exported`. -/
theorem summary_at8 (s t : Nat) : (summaryMsg s t).data[8]? = some ' ' := by
  have hd : (summaryMsg s t).data = "Exported ".data ++
      ((Nat.repr s).data ++ ("/".data ++
        ((Nat.repr t).data ++ " meshes successfully.".data))) := by
    unfold SimpleObjExporter.summaryMsg
    simp only [String.data_append, List.append_assoc]
  rw [hd, List.getElem?_append_left (by decide)]
  decide

open SimpleObjExporter in
/-- A message whose first character is not `E` is not a batch summary. -/
theorem ne_summaryMsg_of_head (m : String) (c : Char)
    (hc : m.data[0]? = some c) (hne : c ≠ 'E') (s t : Nat) :
    m ≠ summaryMsg s t := by
  intro h
  rw [h, summary_head] at hc
  exact hne (Option.some.inj hc).symm

open SimpleObjExporter in
/-- A per-file export info message is never a batch summary (they differ
at index 8: a colon versus a space). -/
theorem exported_info_ne_summary (x : String) (s t : Nat) :
    "Exported: " ++ x ≠ summaryMsg s t := by
  intro h
  have h8 : ("Exported: " ++ x).data[8]? = some ':' := by
    rw [append_data_getElem _ _ 8 (by decide)]
    decide
  rw [h, summary_at8] at h8
  exact absurd (Option.some.inj h8) (by decide)

open SimpleObjExporter in
/-- No message displayed by a single `export_mesh` call is a batch
summary message. -/
theorem meshMsgs_not_summary (env : ExpEnv) (batch : List (List Char))
    (mesh : List Char) :
    ∀ m ∈ meshMsgs env batch mesh, ∀ s t, m ≠ summaryMsg s t := by
  intro m hm s t
  revert hm
  unfold meshMsgs export_mesh
  cases hc : cleanPartsE ((mesh.splitOn '|').filter (fun p => p ≠ [])) with
  | error e =>
    dsimp only
    intro hm
    simp only [List.nil_append, List.mem_singleton] at hm
    obtain ⟨p, hp⟩ := cleanPartsE_error_shape _ _ hc
    subst hm
    rw [hp]
    refine ne_summaryMsg_of_head _ 'N' ?_ (by decide) s t
    unfold SimpleObjExporter.cleanErrMsg
    rw [show ("Node name \"" ++ String.mk p ++
        "\" contains illegal characters.") =
      ("Node name \"" ++ (String.mk p ++
        "\" contains illegal characters.")) by simp [String.append_assoc]]
    rw [append_data_getElem _ _ 0 (by decide)]
    decide
  | ok parts =>
    dsimp only
    cases hl : parts.getLast? with
    | none =>
      intro hm
      simp at hm
    | some mn =>
      dsimp only
      by_cases hmk : env.mkdirFails (resolveSegs (batch ++ parts.dropLast))
      · have hed : ensure_dirP env (batch ++ parts.dropLast) =
            (false, ["Failed to create directory " ++
              pathStr (resolveSegs (batch ++ parts.dropLast))]) := by
          unfold ensure_dirP
          dsimp only
          rw [hmk]
          simp
        rw [hed]
        dsimp only
        intro hm
        simp at hm
        rcases hm with hm | hm <;> subst hm
        · refine ne_summaryMsg_of_head _ 'F' ?_ (by decide) s t
          rw [append_data_getElem "Failed to create directory " _ 0
            (by decide)]
          decide
        · refine ne_summaryMsg_of_head _ 'F' ?_ (by decide) s t
          rw [append_data_getElem "Failed to create export path for " _ 0
            (by decide)]
          decide
      · have hed : ensure_dirP env (batch ++ parts.dropLast) = (true, []) := by
          unfold ensure_dirP
          dsimp only
          rw [show env.mkdirFails (resolveSegs (batch ++ parts.dropLast))
            = false by simpa using hmk]
          simp
        rw [hed]
        dsimp only
        by_cases hx : env.exportFails
            (batch ++ parts.dropLast ++ [mn ++ ".obj".data])
        · rw [show env.exportFails
              (batch ++ parts.dropLast ++ [mn ++ ['.', 'o', 'b', 'j']]) = true
            from hx]
          intro hm
          simp at hm
          subst hm
          refine ne_summaryMsg_of_head _ 'F' ?_ (by decide) s t
          rw [append_data_getElem "Failed to export " _ 0 (by decide)]
          decide
        · rw [show env.exportFails
              (batch ++ parts.dropLast ++ [mn ++ ['.', 'o', 'b', 'j']]) = false
            by simpa using hx]
          intro hm
          simp at hm
          subst hm
          exact exported_info_ne_summary _ s t

open SimpleObjExporter in
/-- A message that is not equal to any summary message does not satisfy
the summary test. -/
theorem not_isSummaryB (total : Nat) (m : String)
    (h : ∀ s t, m ≠ summaryMsg s t) : ¬ isSummaryB total m = true := by
  unfold isSummaryB
  simp only [List.any_eq_true, List.mem_range, beq_iff_eq]
  rintro ⟨s, -, h2⟩
  exact h s total h2

open SimpleObjExporter in
/-- The summary message for a success count within range satisfies the
summary test. -/
theorem isSummaryB_self (n total : Nat) (h : n ≤ total) :
    isSummaryB total (summaryMsg n total) = true := by
  unfold isSummaryB
  simp only [List.any_eq_true, List.mem_range, beq_iff_eq]
  exact ⟨n, by omega, rfl⟩

open SimpleObjExporter in
/-- Invariant of the per-mesh loop of `export_batch`: under the
good-mesh hypotheses it never raises, counts exactly the successful
meshes on top of the accumulator, and appends exactly the per-mesh
messages in order. -/
theorem batchLoop_ok (env : ExpEnv) (batch : List (List Char)) :
    ∀ (meshes : List (List Char)) (st : ExpState) (acc : Nat),
    (∀ m ∈ meshes, (m.splitOn '|').filter (fun p => p ≠ []) ≠ [] ∧
      ∀ p ∈ (m.splitOn '|').filter (fun p => p ≠ []),
        p.any (fun c => illegalChars.contains c) = false) →
    (batchLoop env batch meshes st acc).2.2 = none ∧
    (batchLoop env batch meshes st acc).2.1 =
      acc + meshes.countP (meshSucceeds env batch) ∧
    (batchLoop env batch meshes st acc).1.msgs =
      st.msgs ++ meshes.flatMap (meshMsgs env batch) := by
  intro meshes
  induction meshes with
  | nil => intro st acc hgood; simp [batchLoop]
  | cons m rest ih =>
    intro st acc hgood
    obtain ⟨hne, hcl⟩ := hgood m (by simp)
    have hret := export_mesh_ret_ok env batch m st hne hcl
    have hmsgs0 := (export_mesh_state_free env batch m st).1
    rcases hrun : export_mesh env batch m st with ⟨st1, r⟩
    rw [hrun] at hret hmsgs0
    dsimp only at hret hmsgs0
    subst hret
    unfold batchLoop
    rw [hrun]
    obtain ⟨h1, h2, h3⟩ := ih st1
      (acc + if meshSucceeds env batch m then 1 else 0)
      (fun x hx => hgood x (by simp [hx]))
    refine ⟨h1, ?_, ?_⟩
    · rw [h2, List.countP_cons]
      cases hsucc : meshSucceeds env batch m <;> simp [hsucc] <;> omega
    · rw [h3, hmsgs0, List.flatMap_cons, List.append_assoc]

/-! ## Claim C1: batch export never aborts and reports a summary -/

open SimpleObjExporter in
/-- C1 (counterexample): the claim fails as stated.  With every host
operation succeeding, batch-exporting the two meshes `|bad?` and `|ok`
aborts on the first mesh: `clean_filename` raises `ValueError` outside
the `try` block of `export_mesh`, the exception propagates out of
`export_batch` (second component `some ...`), the second mesh is never
processed (nothing is written although its export would succeed), and no
summary message is displayed. -/
theorem C1_counterexample :
    (export_batch envOk "/exp".data ["|bad?".data, "|ok".data] emptySt).2 =
      some "Node name \"bad?\" contains illegal characters." ∧
    (export_batch envOk "/exp".data ["|bad?".data, "|ok".data] emptySt).1.written
      = [] ∧
    (export_batch envOk "/exp".data ["|bad?".data, "|ok".data] emptySt).1.msgs
      = ["Node name \"bad?\" contains illegal characters."] ∧
    ((export_batch envOk "/exp".data ["|bad?".data, "|ok".data] emptySt).1.msgs.countP
      (isSummaryB 2)) = 0 :=
  ⟨rfl, rfl, rfl, rfl⟩

open SimpleObjExporter in
/-- C1 (amended): provided the export root is valid and no mesh name
contains an illegal character, `export_batch` processes every mesh in
the list — a failure of directory creation or of the export command for
one mesh never aborts the batch — and at the end exactly one summary
message `Exported success/total meshes successfully.` is displayed,
counting the successful exports; a mesh name with illegal characters,
however, makes `clean_filename` raise and aborts the batch with no
summary. -/
theorem C1_export_batch_amended (env : ExpEnv) (batchPath : List Char)
    (meshes : List (List Char)) (st : ExpState)
    (hpath : batchPath ≠ [])
    (hmk : env.mkdirFails (resolveSegs (segsOf batchPath)) = false)
    (hmeshes : ∀ m ∈ meshes, (m.splitOn '|').filter (fun p => p ≠ []) ≠ [] ∧
      ∀ p ∈ (m.splitOn '|').filter (fun p => p ≠ []),
        p.any (fun c => illegalChars.contains c) = false) :
    (export_batch env batchPath meshes st).2 = none ∧
    (export_batch env batchPath meshes st).1.msgs =
      st.msgs ++ meshes.flatMap (meshMsgs env (segsOf batchPath)) ++
        [summaryMsg (meshes.countP (meshSucceeds env (segsOf batchPath)))
          meshes.length] ∧
    ((export_batch env batchPath meshes st).1.msgs.countP
        (isSummaryB meshes.length)) =
      st.msgs.countP (isSummaryB meshes.length) + 1 := by
  have hed : ensure_dir env batchPath = (true, []) := by
    unfold ensure_dir
    rw [if_neg hpath]
    dsimp only
    rw [hmk]
    simp
  unfold export_batch
  rw [hed]
  dsimp only
  obtain ⟨h1, h2, h3⟩ := batchLoop_ok env (segsOf batchPath) meshes
    { st with msgs := st.msgs ++ [] } 0 hmeshes
  rcases hbl : batchLoop env (segsOf batchPath) meshes
    { st with msgs := st.msgs ++ [] } 0 with ⟨st1, succ, exc⟩
  rw [hbl] at h1 h2 h3
  dsimp only at h1 h2 h3
  subst h1
  subst h2
  dsimp only
  simp only [List.append_nil] at h3
  refine ⟨rfl, ?_, ?_⟩
  · rw [h3]
    simp [List.append_assoc]
  · rw [h3]
    rw [List.countP_append, List.countP_append]
    have hflat : ((meshes.flatMap
        (meshMsgs env (segsOf batchPath))).countP
          (isSummaryB meshes.length)) = 0 := by
      rw [List.countP_eq_zero]
      intro a ha
      rw [List.mem_flatMap] at ha
      obtain ⟨x, hx, hax⟩ := ha
      exact not_isSummaryB meshes.length a
        (meshMsgs_not_summary env (segsOf batchPath) x a hax)
    have hsum : (([summaryMsg
          (0 + meshes.countP (meshSucceeds env (segsOf batchPath)))
          meshes.length]).countP (isSummaryB meshes.length)) = 1 := by
      rw [List.countP_singleton]
      rw [isSummaryB_self _ _ (by simpa using List.countP_le_length _)]
      rfl
    rw [hflat, hsum]

open SimpleObjExporter in
/-- C1 (witness): a concrete two-mesh batch with legal names completes
without raising. -/
theorem C1_witness :
    (export_batch envOk "/exp".data ["|a".data, "|grp|b".data] emptySt).2 =
      none :=
  (C1_export_batch_amended envOk "/exp".data ["|a".data, "|grp|b".data]
    emptySt (by decide) rfl (by decide)).1

/-! ## Lemmas on the Python replace embedding (for claim C4) -/

/-- Unfolding of single-character replace on a cons cell. -/
theorem pyReplace_single_cons (c : Char) (rep : List Char) (a : Char)
    (rest : List Char) :
    pyReplace [c] rep (a :: rest) =
      if a = c then rep ++ pyReplace [c] rep rest
      else a :: pyReplace [c] rep rest := by
  show pyReplaceFuel [c] rep (rest.length + 1) (a :: rest) = _
  by_cases h : a = c
  · subst h
    simp [pyReplaceFuel, List.isPrefixOf, pyReplace]
  · have hca : ¬ (c = a) := fun hca => h hca.symm
    simp [pyReplaceFuel, List.isPrefixOf, pyReplace, h, hca]

/-- Replace leaves a string without the pattern character unchanged. -/
theorem pyReplace_single_id (c : Char) (rep p : List Char) (h : c ∉ p) :
    pyReplace [c] rep p = p := by
  induction p with
  | nil => rfl
  | cons a p ih =>
    rw [pyReplace_single_cons]
    have h1 : a ≠ c := fun hac => h (hac ▸ List.mem_cons_self a p)
    have h2 : c ∉ p := fun hcp => h (List.mem_cons_of_mem a hcp)
    rw [if_neg h1, ih h2]

/-- Replace walks over a clean chunk up to the next occurrence. -/
theorem pyReplace_single_chunk (c : Char) (rep p rest : List Char)
    (h : c ∉ p) :
    pyReplace [c] rep (p ++ c :: rest) =
      p ++ rep ++ pyReplace [c] rep rest := by
  induction p with
  | nil =>
    rw [List.nil_append]
    rw [pyReplace_single_cons]
    simp
  | cons a p ih =>
    have h1 : a ≠ c := fun hac => h (hac ▸ List.mem_cons_self a p)
    have h2 : c ∉ p := fun hcp => h (List.mem_cons_of_mem a hcp)
    rw [List.cons_append, pyReplace_single_cons, if_neg h1, ih h2]
    simp

/-- Splitting of `intercalate` at the first separator. -/
theorem intercalate_cons_cons (sep p q : List Char) (qs : List (List Char)) :
    List.intercalate sep (p :: q :: qs) =
      p ++ sep ++ List.intercalate sep (q :: qs) := by
  simp [List.intercalate, List.intersperse_cons_cons]

/-- Python `s.replace(c, rep)` on a string joined with separator `c`
re-joins the parts with `rep`, provided no part contains `c`. -/
theorem pyReplace_single_intercalate (c : Char) (rep : List Char) :
    ∀ parts : List (List Char), (∀ p ∈ parts, c ∉ p) →
    pyReplace [c] rep (List.intercalate [c] parts) =
      List.intercalate rep parts := by
  intro parts
  induction parts with
  | nil => intro _; rfl
  | cons p rest ih =>
    intro h
    cases rest with
    | nil =>
      have h1 : List.intercalate [c] [p] = p := by simp [List.intercalate]
      have h2 : List.intercalate rep [p] = p := by simp [List.intercalate]
      rw [h1, h2, pyReplace_single_id c rep p (h p (by simp))]
    | cons q qs =>
      rw [intercalate_cons_cons, intercalate_cons_cons]
      have hp : c ∉ p := h p (by simp)
      have hrest : ∀ x ∈ q :: qs, c ∉ x := fun x hx => h x (by simp [hx])
      rw [show p ++ [c] ++ List.intercalate [c] (q :: qs) =
        p ++ c :: List.intercalate [c] (q :: qs) by simp]
      rw [pyReplace_single_chunk c rep p _ hp, ih hrest]

/-- Unfolding of replace on a cons cell that does not start the
pattern. -/
theorem pyReplace_cons_miss (pat rep : List Char) (a : Char)
    (rest : List Char) (h : ¬ pat.isPrefixOf (a :: rest) = true) :
    pyReplace pat rep (a :: rest) = a :: pyReplace pat rep rest := by
  show pyReplaceFuel pat rep (rest.length + 1) (a :: rest) = _
  simp [pyReplaceFuel, pyReplace, h]

/-- No adjacent pair inside a string free of the character. -/
theorem hasAdjPair_of_not_mem (c : Char) (p : List Char) (h : c ∉ p) :
    hasAdjPair c p = false := by
  induction p with
  | nil => rfl
  | cons a p ih =>
    have h1 : a ≠ c := fun hac => h (hac ▸ List.mem_cons_self a p)
    have h2 : c ∉ p := fun hcp => h (List.mem_cons_of_mem a hcp)
    cases p with
    | nil => rfl
    | cons b t => simp [hasAdjPair, h1, ih h2]

/-- A single separator occurrence creates no adjacent pair when the
following chunk does not start with the separator. -/
theorem hasAdjPair_sep (c : Char) (rest : List Char)
    (hX : rest.head? ≠ some c) (hadj : hasAdjPair c rest = false) :
    hasAdjPair c (c :: rest) = false := by
  cases rest with
  | nil => rfl
  | cons x t =>
    have hx : x ≠ c := by
      intro hxc
      exact hX (by simp [hxc])
    simp [hasAdjPair, hx, hadj]

/-- Walking a clean chunk preserves absence of adjacent pairs up to the
next separator. -/
theorem hasAdjPair_chunk (c : Char) (p rest : List Char) (hp : c ∉ p)
    (hX : rest.head? ≠ some c) (hadj : hasAdjPair c rest = false) :
    hasAdjPair c (p ++ c :: rest) = false := by
  induction p with
  | nil =>
    rw [List.nil_append]
    exact hasAdjPair_sep c rest hX hadj
  | cons a p ih =>
    have h1 : a ≠ c := fun hac => hp (hac ▸ List.mem_cons_self a p)
    have h2 : c ∉ p := fun hcp => hp (List.mem_cons_of_mem a hcp)
    cases p with
    | nil =>
      simp only [List.nil_append] at ih ⊢
      simp [hasAdjPair, h1, hasAdjPair_sep c rest hX hadj]
    | cons b t =>
      simp only [List.cons_append] at ih ⊢
      simp [hasAdjPair, h1]
      have := ih h2
      simpa [List.cons_append] using this

/-- The head of a non-trivial intercalate is the head of its first
part. -/
theorem intercalate_head (sep q : List Char) (qs : List (List Char))
    (hq : q ≠ []) :
    (List.intercalate sep (q :: qs)).head? = q.head? := by
  cases qs with
  | nil => simp [List.intercalate]
  | cons r rs =>
    rw [intercalate_cons_cons]
    cases q with
    | nil => exact absurd rfl hq
    | cons a q2 => simp

/-- Joining non-empty separator-free parts with a separator never
creates two adjacent separator characters. -/
theorem hasAdjPair_intercalate (c : Char) :
    ∀ parts : List (List Char), (∀ p ∈ parts, p ≠ [] ∧ c ∉ p) →
    hasAdjPair c (List.intercalate [c] parts) = false := by
  intro parts
  induction parts with
  | nil => intro _; rfl
  | cons p rest ih =>
    intro h
    cases rest with
    | nil =>
      have h1 : List.intercalate [c] [p] = p := by simp [List.intercalate]
      rw [h1]
      exact hasAdjPair_of_not_mem c p (h p (by simp)).2
    | cons q qs =>
      rw [intercalate_cons_cons]
      rw [show p ++ [c] ++ List.intercalate [c] (q :: qs) =
        p ++ c :: List.intercalate [c] (q :: qs) by simp]
      refine hasAdjPair_chunk c p _ (h p (by simp)).2 ?_
        (ih (fun x hx => h x (by simp [hx])))
      rw [intercalate_head [c] q qs (h q (by simp)).1]
      obtain ⟨hq1, hq2⟩ := h q (by simp)
      cases q with
      | nil => exact absurd rfl hq1
      | cons b t =>
        have hb : b ≠ c := fun hbc => hq2 (hbc ▸ List.mem_cons_self b t)
        simp [hb]

/-- Replacing a doubled character leaves a string without adjacent
pairs unchanged. -/
theorem pyReplace_pair_id (c : Char) (rep : List Char) :
    ∀ s : List Char, hasAdjPair c s = false →
    pyReplace [c, c] rep s = s := by
  intro s
  induction s with
  | nil => intro _; rfl
  | cons a rest ih =>
    intro h
    have hnp : ¬ ([c, c].isPrefixOf (a :: rest)) = true := by
      intro hp
      cases rest with
      | nil => simp [List.isPrefixOf] at hp
      | cons b t =>
        simp only [List.isPrefixOf, Bool.and_eq_true, beq_iff_eq] at hp
        obtain ⟨hca, hcb, -⟩ := hp
        rw [← hca, ← hcb] at h
        simp [hasAdjPair] at h
    rw [pyReplace_cons_miss _ _ _ _ hnp]
    have hrest : hasAdjPair c rest = false := by
      cases rest with
      | nil => rfl
      | cons b t =>
        simp only [hasAdjPair, Bool.or_eq_false_iff] at h
        exact h.2
    rw [ih hrest]

/-- A string with the literal prefix `.\\` (dot backslash backslash)
has an adjacent backslash pair. -/
theorem hasAdjPair_of_dotbb (s : List Char)
    (h : (".\\\\".data.isPrefixOf s) = true) :
    hasAdjPair '\\' s = true := by
  rw [List.isPrefixOf_iff_prefix] at h
  obtain ⟨t, ht⟩ := h
  rw [show ".\\\\".data = ['.', '\\', '\\'] from rfl] at ht
  rw [← ht]
  rfl

open ZBrushImport in
/-- The SubTool renaming chain reduces, on real relative paths (every
segment non-empty and backslash-free), to joining the segments with
`%5C`. -/
theorem encodeSubtoolName_eq (rel : List (List Char))
    (h : ∀ seg ∈ rel, seg ≠ [] ∧ '\\' ∉ seg) :
    encodeSubtoolName rel = List.intercalate "%5C".data rel := by
  unfold encodeSubtoolName winRelStr
  have hadj : hasAdjPair '\\' (List.intercalate ['\\'] rel) = false :=
    hasAdjPair_intercalate '\\' rel h
  have hpre : pyRemovePrefixL ".\\\\".data (List.intercalate ['\\'] rel) =
      List.intercalate ['\\'] rel := by
    unfold pyRemovePrefixL
    rw [if_neg]
    intro hp
    rw [hasAdjPair_of_dotbb _ hp] at hadj
    exact Bool.noConfusion hadj
  rw [hpre]
  rw [show "\\\\".data = ['\\', '\\'] from rfl]
  rw [show ("\\".data : List Char) = ['\\'] from rfl]
  rw [pyReplace_pair_id '\\' ['\\'] _ hadj]
  exact pyReplace_single_intercalate '\\' "%5C".data rel
    (fun p hp => (h p hp).2)

/-! ## Counting lemmas for import_objs (claim C4) -/

open ZBrushImport in
/-- Folder-creation count contributed by a single iterdir entry. -/
theorem count_createFolder_subActions (n : List Char) (e : FSEntry) :
    (subActions e).count (ZAction.createFolder n) =
      if isDirNamed n e then 1 else 0 := by
  cases e with
  | file m => simp [ZBrushImport.subActions, ZBrushImport.isDirNamed]
  | dir m objs =>
    have hz : ((sortPaths objs).map (fun rel =>
        ZAction.importRenamed m rel (encodeSubtoolName rel))).count
        (ZAction.createFolder n) = 0 := by
      rw [List.count_eq_zero]
      intro hmem
      rw [List.mem_map] at hmem
      obtain ⟨rel, -, habs⟩ := hmem
      exact ZAction.noConfusion habs
    by_cases hmn : m = n
    · subst hmn
      simp [ZBrushImport.subActions, ZBrushImport.isDirNamed,
        List.count_cons, hz]
    · simp [ZBrushImport.subActions, ZBrushImport.isDirNamed,
        List.count_cons, hz, hmn]

open ZBrushImport in
/-- Folder-creation count over a list of iterdir entries. -/
theorem count_createFolder_flatMap (n : List Char) :
    ∀ l : List FSEntry,
    ((l.flatMap subActions).count (ZAction.createFolder n)) =
      l.countP (isDirNamed n) := by
  intro l
  induction l with
  | nil => rfl
  | cons e rest ih =>
    rw [List.flatMap_cons, List.count_append, count_createFolder_subActions,
      List.countP_cons, ih]
    cases h : isDirNamed n e <;> simp [h] <;> omega

open ZBrushImport in
/-- With distinct entry names, a directory present in the list is
counted exactly once. -/
theorem countP_isDirNamed_eq_one (n : List Char)
    (objs : List (List (List Char))) :
    ∀ l : List FSEntry, (l.map entryName).Nodup →
    FSEntry.dir n objs ∈ l → l.countP (isDirNamed n) = 1 := by
  intro l
  induction l with
  | nil => intro _ h; simp at h
  | cons e rest ih =>
    intro hnd hmem
    rw [List.map_cons, List.nodup_cons] at hnd
    obtain ⟨hn1, hn2⟩ := hnd
    rw [List.countP_cons]
    rcases List.mem_cons.mp hmem with he | he
    · subst he
      have hz : rest.countP (isDirNamed n) = 0 := by
        rw [List.countP_eq_zero]
        intro x hx hdx
        have hxn : entryName x = n := by
          cases x with
          | file m => simp [ZBrushImport.isDirNamed] at hdx
          | dir m o =>
            simp [ZBrushImport.isDirNamed] at hdx
            simpa [ZBrushImport.entryName] using hdx
        apply hn1
        rw [show entryName (FSEntry.dir n objs) = n from rfl, ← hxn]
        exact List.mem_map_of_mem _ hx
      rw [hz]
      simp [ZBrushImport.isDirNamed]
    · have h1 := ih hn2 he
      have hz : isDirNamed n e = false := by
        cases e with
        | file m => rfl
        | dir m o =>
          by_contra hq
          rw [Bool.not_eq_false] at hq
          simp [ZBrushImport.isDirNamed] at hq
          apply hn1
          rw [show entryName (FSEntry.dir m o) = m from rfl, hq]
          rw [show n = entryName (FSEntry.dir n objs) from rfl]
          exact List.mem_map_of_mem _ he
      rw [h1, hz]
      simp

/-! ## Claim C4: ZBrush import of a directory tree -/

open ZBrushImport in
/-- C4: for every directory tree with distinct entry names whose file
names are real path segments (non-empty, backslash-free), `import_objs`
(a) imports exactly the root-level `.obj` files into the current tool,
(b) creates exactly one SubTool folder per immediate subdirectory named
after it and no other folders, and (c) imports exactly the `.obj` files
found recursively under each subdirectory, renaming each so its SubTool
name is the path relative to that subdirectory with backslash
separators replaced by `%5C`. -/
theorem C4_import_objs (fs : FSView)
    (hnodup : (fs.entries.map entryName).Nodup)
    (hvalid : ∀ e ∈ fs.entries, ∀ rel ∈ entryObjs e, ∀ seg ∈ rel,
      seg ≠ [] ∧ '\\' ∉ seg) :
    (∀ f, ZAction.importRoot f ∈ import_objs fs ↔ f ∈ fs.rootObjs) ∧
    (∀ n objs, FSEntry.dir n objs ∈ fs.entries →
      (import_objs fs).count (ZAction.createFolder n) = 1) ∧
    (∀ n, ZAction.createFolder n ∈ import_objs fs →
      ∃ objs, FSEntry.dir n objs ∈ fs.entries) ∧
    (∀ n objs rel, FSEntry.dir n objs ∈ fs.entries → rel ∈ objs →
      ZAction.importRenamed n rel (List.intercalate "%5C".data rel) ∈
        import_objs fs) ∧
    (∀ n rel nm, ZAction.importRenamed n rel nm ∈ import_objs fs →
      nm = List.intercalate "%5C".data rel ∧
        ∃ objs, FSEntry.dir n objs ∈ fs.entries ∧ rel ∈ objs) := by
  have hpe : List.Perm (sortEntries fs.entries) fs.entries :=
    List.perm_insertionSort _ _
  have hpn : List.Perm (sortNames fs.rootObjs) fs.rootObjs :=
    List.perm_insertionSort _ _
  refine ⟨?_, ?_, ?_, ?_, ?_⟩
  · intro f
    unfold ZBrushImport.import_objs
    rw [List.mem_append]
    constructor
    · rintro (hr | hf)
      · rw [List.mem_map] at hr
        obtain ⟨g, hg, hinj⟩ := hr
        have hgf : g = f := by simpa using hinj
        subst hgf
        exact hpn.mem_iff.mp hg
      · exfalso
        rw [List.mem_flatMap] at hf
        obtain ⟨e, -, ha⟩ := hf
        cases e with
        | file m => simp [ZBrushImport.subActions] at ha
        | dir m objs => simp [ZBrushImport.subActions] at ha
    · intro hf
      left
      rw [List.mem_map]
      exact ⟨f, hpn.mem_iff.mpr hf, rfl⟩
  · intro n objs hmem
    unfold ZBrushImport.import_objs
    rw [List.count_append]
    have h0 : ((sortNames fs.rootObjs).map ZAction.importRoot).count
        (ZAction.createFolder n) = 0 := by
      rw [List.count_eq_zero]
      intro hq
      rw [List.mem_map] at hq
      obtain ⟨g, -, habs⟩ := hq
      exact ZAction.noConfusion habs
    rw [h0, count_createFolder_flatMap, hpe.countP_eq,
      countP_isDirNamed_eq_one n objs fs.entries hnodup hmem]
  · intro n hmem
    unfold ZBrushImport.import_objs at hmem
    rw [List.mem_append] at hmem
    rcases hmem with hr | hf
    · exfalso
      rw [List.mem_map] at hr
      obtain ⟨g, -, habs⟩ := hr
      exact ZAction.noConfusion habs
    · rw [List.mem_flatMap] at hf
      obtain ⟨e, he, ha⟩ := hf
      cases e with
      | file m => simp [ZBrushImport.subActions] at ha
      | dir m objs =>
        simp only [ZBrushImport.subActions, List.mem_cons] at ha
        rcases ha with ha | ha
        · have hmn : m = n := by simpa using ha.symm
          subst hmn
          exact ⟨objs, hpe.mem_iff.mp he⟩
        · exfalso
          rw [List.mem_map] at ha
          obtain ⟨rel, -, habs⟩ := ha
          exact ZAction.noConfusion habs
  · intro n objs rel hmem hrel
    unfold ZBrushImport.import_objs
    rw [List.mem_append]
    right
    rw [List.mem_flatMap]
    refine ⟨FSEntry.dir n objs, hpe.mem_iff.mpr hmem, ?_⟩
    simp only [ZBrushImport.subActions]
    refine List.mem_cons_of_mem _ ?_
    rw [List.mem_map]
    refine ⟨rel, (List.perm_insertionSort _ objs).mem_iff.mpr hrel, ?_⟩
    rw [encodeSubtoolName_eq rel
      (hvalid _ hmem rel (by simpa [ZBrushImport.entryObjs] using hrel))]
  · intro n rel nm hmem
    unfold ZBrushImport.import_objs at hmem
    rw [List.mem_append] at hmem
    rcases hmem with hr | hf
    · exfalso
      rw [List.mem_map] at hr
      obtain ⟨g, -, habs⟩ := hr
      exact ZAction.noConfusion habs
    · rw [List.mem_flatMap] at hf
      obtain ⟨e, he, ha⟩ := hf
      cases e with
      | file m => simp [ZBrushImport.subActions] at ha
      | dir m objs =>
        simp only [ZBrushImport.subActions, List.mem_cons] at ha
        rcases ha with ha | ha
        · exact absurd ha (by simp)
        · rw [List.mem_map] at ha
          obtain ⟨rel2, hrel2, heq⟩ := ha
          have h1 : m = n ∧ rel2 = rel ∧ encodeSubtoolName rel2 = nm := by
            simpa using heq
          obtain ⟨hm, hrel9, hnm⟩ := h1
          have hein : FSEntry.dir n objs ∈ fs.entries := by
            rw [← hm]
            exact hpe.mem_iff.mp he
          have hrelo : rel ∈ objs := by
            rw [← hrel9]
            exact (List.perm_insertionSort _ objs).mem_iff.mp hrel2
          have hseg : ∀ seg ∈ rel, seg ≠ [] ∧ '\\' ∉ seg :=
            hvalid _ hein rel (by simpa [ZBrushImport.entryObjs] using hrelo)
          refine ⟨?_, ⟨objs, hein, hrelo⟩⟩
          rw [← hnm, hrel9, encodeSubtoolName_eq rel hseg]

open ZBrushImport in
/-- C4 (witness): a concrete tree with one root obj, one loose file and
one subdirectory containing a nested obj. -/
theorem C4_witness :
    ZAction.importRenamed "props".data ["arm".data, "leg.obj".data]
        (List.intercalate "%5C".data ["arm".data, "leg.obj".data]) ∈
      import_objs
        { rootObjs := ["a.obj".data],
          entries := [FSEntry.file "a.obj".data,
            FSEntry.dir "props".data
              [["chair.obj".data], ["arm".data, "leg.obj".data]]] } :=
  (C4_import_objs
    { rootObjs := ["a.obj".data],
      entries := [FSEntry.file "a.obj".data,
        FSEntry.dir "props".data
          [["chair.obj".data], ["arm".data, "leg.obj".data]]] }
    (by decide) (by decide)).2.2.2.1 "props".data
    [["chair.obj".data], ["arm".data, "leg.obj".data]]
    ["arm".data, "leg.obj".data] (by decide) (by decide)

/-! ## Helper lemmas for create_group_hierarchy (claim C6) -/

open CreateGroups in
/-- A string-valued key contributes its group. -/
theorem cgh_mem_of_str (d : List (String × JVal)) (parent : Option String)
    (key s : String) (hmem : (key, JVal.str s) ∈ d) :
    ({ name := key, parent := parent, notes := some s } : GNode) ∈
      create_group_hierarchy d parent := by
  induction d with
  | nil => simp at hmem
  | cons kv rest ih =>
    rcases List.mem_cons.mp hmem with he | he
    · subst he
      simp [CreateGroups.create_group_hierarchy]
    · obtain ⟨k, v⟩ := kv
      cases v with
      | str s2 =>
        simp only [CreateGroups.create_group_hierarchy, List.mem_cons]
        exact Or.inr (ih he)
      | obj fields =>
        simp only [CreateGroups.create_group_hierarchy, List.mem_cons,
          List.mem_append]
        exact Or.inr (Or.inr (ih he))
      | other =>
        simp only [CreateGroups.create_group_hierarchy]
        exact ih he

open CreateGroups in
/-- A dict-valued key contributes its group, with notes exactly when
its `notes` field is a non-empty string. -/
theorem cgh_mem_of_obj (d : List (String × JVal)) (parent : Option String)
    (key : String) (fields : List (String × JVal))
    (hmem : (key, JVal.obj fields) ∈ d) :
    ({ name := key, parent := parent, notes := notesOf fields } : GNode) ∈
      create_group_hierarchy d parent := by
  induction d with
  | nil => simp at hmem
  | cons kv rest ih =>
    rcases List.mem_cons.mp hmem with he | he
    · subst he
      simp [CreateGroups.create_group_hierarchy]
    · obtain ⟨k, v⟩ := kv
      cases v with
      | str s2 =>
        simp only [CreateGroups.create_group_hierarchy, List.mem_cons]
        exact Or.inr (ih he)
      | obj fields2 =>
        simp only [CreateGroups.create_group_hierarchy, List.mem_cons,
          List.mem_append]
        exact Or.inr (Or.inr (ih he))
      | other =>
        simp only [CreateGroups.create_group_hierarchy]
        exact ih he

open CreateGroups in
/-- Groups created inside the `children` of a dict-valued key appear in
the output. -/
theorem cgh_mem_of_child (d : List (String × JVal)) (parent : Option String)
    (key : String) (fields : List (String × JVal)) (g : GNode)
    (hmem : (key, JVal.obj fields) ∈ d)
    (hg : g ∈ create_group_hierarchy (childrenOf fields) (some key)) :
    g ∈ create_group_hierarchy d parent := by
  induction d with
  | nil => simp at hmem
  | cons kv rest ih =>
    rcases List.mem_cons.mp hmem with he | he
    · subst he
      simp only [CreateGroups.create_group_hierarchy, List.mem_cons,
        List.mem_append]
      exact Or.inr (Or.inl hg)
    · obtain ⟨k, v⟩ := kv
      cases v with
      | str s2 =>
        simp only [CreateGroups.create_group_hierarchy, List.mem_cons]
        exact Or.inr (ih he)
      | obj fields2 =>
        simp only [CreateGroups.create_group_hierarchy, List.mem_cons,
          List.mem_append]
        exact Or.inr (Or.inr (ih he))
      | other =>
        simp only [CreateGroups.create_group_hierarchy]
        exact ih he

open CreateGroups in
/-- A description over a dictionary lifts to a larger dictionary. -/
theorem describes_mono (kv : String × JVal) (d : List (String × JVal))
    (parent : Option String) (g : GNode) (h : Describes d parent g) :
    Describes (kv :: d) parent g := by
  induction h with
  | strNode d2 p2 key s hmem =>
    exact Describes.strNode _ _ _ _ (List.mem_cons_of_mem _ hmem)
  | objNode d2 p2 key fields hmem =>
    exact Describes.objNode _ _ _ _ (List.mem_cons_of_mem _ hmem)
  | childNode d2 p2 key fields g2 hmem hg ih =>
    exact Describes.childNode _ _ _ _ _ (List.mem_cons_of_mem _ hmem) hg

open CreateGroups in
/-- Membership in the created group list coincides with the declarative
description. -/
theorem cgh_mem_describes (d : List (String × JVal))
    (parent : Option String) (g : GNode) :
    g ∈ create_group_hierarchy d parent ↔ Describes d parent g := by
  constructor
  · induction d, parent using CreateGroups.create_group_hierarchy.induct with
    | case1 parent => intro hg; simp [CreateGroups.create_group_hierarchy] at hg
    | case2 key s rest parent ih =>
      intro hg
      simp only [CreateGroups.create_group_hierarchy, List.mem_cons] at hg
      rcases hg with hg | hg
      · subst hg
        exact Describes.strNode _ _ _ _ (by simp)
      · exact describes_mono _ _ _ _ (ih hg)
    | case3 key fields rest parent ihc ihr =>
      intro hg
      simp only [CreateGroups.create_group_hierarchy, List.mem_cons,
        List.mem_append] at hg
      rcases hg with hg | hg | hg
      · subst hg
        exact Describes.objNode _ _ _ _ (by simp)
      · exact Describes.childNode _ _ _ _ _ (by simp) (ihc hg)
      · exact describes_mono _ _ _ _ (ihr hg)
    | case4 k rest parent ih =>
      intro hg
      simp only [CreateGroups.create_group_hierarchy] at hg
      exact describes_mono _ _ _ _ (ih hg)
  · intro h
    induction h with
    | strNode d2 p2 key s hmem => exact cgh_mem_of_str _ _ _ _ hmem
    | objNode d2 p2 key fields hmem => exact cgh_mem_of_obj _ _ _ _ hmem
    | childNode d2 p2 key fields g2 hmem hg ih =>
      exact cgh_mem_of_child _ _ _ _ _ hmem ih

open CreateGroups in
/-- One group is created per dict-valued or string-valued key. -/
theorem cgh_length (d : List (String × JVal)) (parent : Option String) :
    (create_group_hierarchy d parent).length = countGroups d := by
  induction d, parent using CreateGroups.create_group_hierarchy.induct with
  | case1 parent =>
    simp [CreateGroups.create_group_hierarchy, CreateGroups.countGroups]
  | case2 key s rest parent ih =>
    simp only [CreateGroups.create_group_hierarchy, CreateGroups.countGroups,
      List.length_cons, ih]
    omega
  | case3 key fields rest parent ihc ihr =>
    simp only [CreateGroups.create_group_hierarchy, CreateGroups.countGroups,
      List.length_cons, List.length_append, ihc, ihr]
    omega
  | case4 k rest parent ih =>
    simp only [CreateGroups.create_group_hierarchy, CreateGroups.countGroups,
      ih]

/-! ## Claim C6: group hierarchy from JSON -/

open CreateGroups in
/-- C6 (counterexample): a dict-valued key with no `notes` field gets a
group but no `notes` attribute at all, so the descriptive text is not
attached to every created node. -/
theorem C6_counterexample :
    create_group_hierarchy [("a", JVal.obj [])] none =
      [{ name := "a", parent := none, notes := none }] ∧
    ¬ (∀ g ∈ create_group_hierarchy [("a", JVal.obj [])] none,
        g.notes ≠ none) := by
  have h : create_group_hierarchy [("a", JVal.obj [])] none =
      [{ name := "a", parent := none, notes := none }] := by
    simp [CreateGroups.create_group_hierarchy, CreateGroups.notesOf,
      CreateGroups.childrenOf, CreateGroups.lookupField]
  refine ⟨h, fun hall => ?_⟩
  have := hall { name := "a", parent := none, notes := none } (by rw [h]; simp)
  exact this rfl

open CreateGroups in
/-- C6 (amended): `create_group_hierarchy` creates exactly one empty
transform group per dict-valued or string-valued key reachable through
`children` chains, parents each group under the group of its enclosing
key, and sets the `notes` string attribute exactly as the code paths
do: always for string-valued keys (to the string), and for dict-valued
keys only when their `notes` field is a non-empty string. -/
theorem C6_create_group_hierarchy_amended (d : List (String × JVal))
    (parent : Option String) :
    (∀ g, g ∈ create_group_hierarchy d parent ↔ Describes d parent g) ∧
    (create_group_hierarchy d parent).length = countGroups d :=
  ⟨fun g => cgh_mem_describes d parent g, cgh_length d parent⟩

open CreateGroups in
/-- C6 (witness): the amended theorem instantiated on a one-key object
with a string value. -/
theorem C6_witness :
    ({ name := "a", parent := none, notes := some "desc" } : GNode) ∈
      create_group_hierarchy [("a", JVal.str "desc")] none :=
  ((C6_create_group_hierarchy_amended [("a", JVal.str "desc")] none).1
    { name := "a", parent := none, notes := some "desc" }).mpr
    (Describes.strNode _ _ _ _ (by simp))

/-! ## Helper lemmas for import_images (claim C7) -/

open ImportImages in
/-- The running maximum over width/height pairs equals the maximum of
the flattened dimension list. -/
theorem computeSpacing_eq (dims : List (ℚ × ℚ)) :
    computeSpacing dims = listMax (dims.flatMap (fun d => [d.1, d.2])) := by
  unfold ImportImages.computeSpacing ImportImages.listMax
  suffices h : ∀ a : ℚ, dims.foldl (fun acc d => max (max acc d.1) d.2) a =
      (dims.flatMap (fun d => [d.1, d.2])).foldl max a from h 0
  intro a
  induction dims generalizing a with
  | nil => rfl
  | cons d rest ih =>
    rw [List.flatMap_cons, List.foldl_append]
    simp only [List.foldl_cons, List.foldl_nil]
    exact ih _

open ImportImages in
/-- The running maximum of half-heights is half the maximum height. -/
theorem computeGroundOffset_eq (dims : List (ℚ × ℚ)) :
    computeGroundOffset dims = listMax (dims.map (fun d => d.2)) / 2 := by
  unfold ImportImages.computeGroundOffset ImportImages.listMax
  suffices h : ∀ a : ℚ,
      dims.foldl (fun acc d => max acc (d.2 / 2)) (a / 2) =
        ((dims.map (fun d => d.2)).foldl max a) / 2 by
    have h0 := h 0
    norm_num at h0
    exact h0
  intro a
  induction dims generalizing a with
  | nil => rfl
  | cons d rest ih =>
    simp only [List.foldl_cons, List.map_cons]
    rw [show max (a / 2) (d.2 / 2) = max a d.2 / 2 from
      max_div_div_right (by norm_num) a d.2]
    exact ih (max a d.2)

open ImportImages in
/-- Indexing the positioned-plane list yields the per-index formula. -/
theorem position_image_planes_getD (s g : ℚ) (n i : Nat) (hi : i < n) :
    (position_image_planes s g n).getD i (0, 0, 0) = planePos s g i := by
  unfold ImportImages.position_image_planes
  rw [List.getD_eq_getElem?_getD, List.getElem?_map, List.getElem?_range hi]
  rfl

open ImportImages in
/-- Distinctness across the first six planes and any later plane. -/
theorem planePos_inj_cross (s g : ℚ) (hs : 0 < s) (i j : Nat)
    (hi : i < 6) (hj : ¬ j < 6) :
    planePos s g i ≠ planePos s g j := by
  have ha : 0 < s * (6 / 5 : ℚ) := mul_pos hs (by norm_num)
  have hj6 : (6 : ℚ) ≤ (j : ℚ) := by exact_mod_cast Nat.le_of_not_lt hj
  unfold ImportImages.planePos
  rw [if_pos hi, if_neg hj]
  interval_cases i <;>
    · intro hcon
      simp only [ImportImages.viewDirs, List.getD_cons_zero,
        List.getD_cons_succ] at hcon
      rw [Prod.mk.injEq, Prod.mk.injEq] at hcon
      obtain ⟨h1, h2, h3⟩ := hcon
      nlinarith [ha, hj6]

open ImportImages in
/-- With positive spacing, no two image planes get the same position. -/
theorem planePos_inj (s g : ℚ) (hs : 0 < s) (i j : Nat) (hij : i ≠ j) :
    planePos s g i ≠ planePos s g j := by
  have ha : 0 < s * (6 / 5 : ℚ) := mul_pos hs (by norm_num)
  by_cases hi : i < 6 <;> by_cases hj : j < 6
  · unfold ImportImages.planePos
    rw [if_pos hi, if_pos hj]
    interval_cases i <;> interval_cases j <;>
      first
      | exact absurd rfl hij
      | · intro hcon
          simp only [ImportImages.viewDirs, List.getD_cons_zero,
            List.getD_cons_succ] at hcon
          rw [Prod.mk.injEq, Prod.mk.injEq] at hcon
          obtain ⟨h1, h2, h3⟩ := hcon
          nlinarith [ha]
  · exact planePos_inj_cross s g hs i j hi hj
  · exact (planePos_inj_cross s g hs j i hj hi).symm
  · unfold ImportImages.planePos
    rw [if_neg hi, if_neg hj]
    intro hcon
    rw [Prod.mk.injEq, Prod.mk.injEq] at hcon
    obtain ⟨-, -, h3⟩ := hcon
    have hq : (i : ℚ) = (j : ℚ) := by linarith
    exact hij (by exact_mod_cast hq)

/-! ## Claim C7: image plane positioning -/

open ImportImages in
/-- C7 (counterexample): with two degenerate (zero width and height)
image planes the computed spacing is 0 and the first two planes are
assigned the same position, so the no-overlap conclusion fails as
stated. -/
theorem C7_counterexample :
    (position_image_planes (computeSpacing [((0 : ℚ), 0), (0, 0)])
        (computeGroundOffset [((0 : ℚ), 0), (0, 0)]) 2).getD 0 (1, 1, 1) =
      (position_image_planes (computeSpacing [((0 : ℚ), 0), (0, 0)])
        (computeGroundOffset [((0 : ℚ), 0), (0, 0)]) 2).getD 1 (1, 1, 1) := by
  norm_num [ImportImages.position_image_planes, ImportImages.planePos,
    ImportImages.computeSpacing, ImportImages.computeGroundOffset,
    ImportImages.viewDirs, List.range_succ]

open ImportImages in
/-- C7 (amended): `spacing` is the maximum of all plane widths and
heights (and 0), `ground_offset` is half the maximum height (and 0),
each of the first six planes sits at its view direction scaled by
`spacing * 1.2` with `ground_offset` added to Y, every later plane `i`
sits at `(0, ground_offset, spacing * 1.2 + (i - 5) * 5)`, and provided
the computed spacing is positive no two planes are assigned the same
position. -/
theorem C7_positions_amended (dims : List (ℚ × ℚ)) (n : Nat) :
    computeSpacing dims = listMax (dims.flatMap (fun d => [d.1, d.2])) ∧
    computeGroundOffset dims = listMax (dims.map (fun d => d.2)) / 2 ∧
    (∀ i, i < n →
      (position_image_planes (computeSpacing dims) (computeGroundOffset dims)
        n).getD i (0, 0, 0) =
      planePos (computeSpacing dims) (computeGroundOffset dims) i) ∧
    (∀ i, i < 6 →
      planePos (computeSpacing dims) (computeGroundOffset dims) i =
        ((viewDirs.getD i (0, 0, 0)).1 * computeSpacing dims * (6 / 5),
         (viewDirs.getD i (0, 0, 0)).2.1 * computeSpacing dims * (6 / 5) +
           computeGroundOffset dims,
         (viewDirs.getD i (0, 0, 0)).2.2 * computeSpacing dims * (6 / 5))) ∧
    (∀ i, 6 ≤ i →
      planePos (computeSpacing dims) (computeGroundOffset dims) i =
        (0, computeGroundOffset dims,
         computeSpacing dims * (6 / 5) + ((i : ℚ) - 5) * 5)) ∧
    (0 < computeSpacing dims → ∀ i j, i ≠ j →
      planePos (computeSpacing dims) (computeGroundOffset dims) i ≠
        planePos (computeSpacing dims) (computeGroundOffset dims) j) := by
  refine ⟨computeSpacing_eq dims, computeGroundOffset_eq dims,
    fun i hi => position_image_planes_getD _ _ n i hi, ?_, ?_, ?_⟩
  · intro i hi
    unfold ImportImages.planePos
    rw [if_pos hi]
  · intro i hi
    unfold ImportImages.planePos
    rw [if_neg (by omega)]
  · intro hs i j hij
    exact planePos_inj _ _ hs i j hij

open ImportImages in
/-- C7 (witness): with one 2 by 1 reference image the spacing is
positive and the front and back planes get distinct positions. -/
theorem C7_witness :
    planePos (computeSpacing [((2 : ℚ), 1)])
        (computeGroundOffset [((2 : ℚ), 1)]) 0 ≠
      planePos (computeSpacing [((2 : ℚ), 1)])
        (computeGroundOffset [((2 : ℚ), 1)]) 1 :=
  (C7_positions_amended [((2 : ℚ), 1)] 2).2.2.2.2.2 (by decide) 0 1
    (by decide)
